import Mathlib

/-!
Shallow embedding of the `api-model-limiter` rate limiter (the current
revision of the limiter class) and proofs about it.

Modelling conventions:
* The Redis backing store is modelled as a `Store`: a total counter map
  `String → Int` (Redis `INCR` on a missing key behaves as if the value
  were 0) plus an existence map for freeze flags.  TTLs (`EXPIRE`,
  `SETEX`) only govern when the backing store autonomously deletes keys;
  no claim is about expiry-driven deletion, so TTL bookkeeping is not
  part of `Store` (the TTL values themselves, `reset`, are modelled).
* `Date.now()` is modelled by an explicit parameter `now : Nat`
  (seconds, i.e. the JS `Math.floor(Date.now() / 1000)`).
* Throwing JS code is modelled with `Except String`, carrying the
  thrown `Error` message.
* JS objects used as insertion-ordered string maps (`model.limits`,
  `customWindows`, the round-robin index tables) are modelled as
  association lists; JS guarantees their keys are distinct.
* `Math.random()`-driven choices take an explicit stream of naturals
  (`rnd`); the `j = Math.floor(Math.random() * (i + 1))` draw is
  modelled as `rnd-head % (i + 1)`.  No claim depends on the
  distribution of the shuffle.
-/

namespace ApiModelLimiter

/-- The backing store: counter values (default 0) and freeze-flag existence. -/
@[ext]
structure Store where
  counters : String → Int
  frozen : String → Bool

/-- `INCR key`: increments and returns the new value. -/
def Store.incr (s : Store) (k : String) : Store × Int :=
  let v := s.counters k + 1
  (⟨fun q => if q = k then v else s.counters q, s.frozen⟩, v)

/-- `DECR key`. -/
def Store.decr (s : Store) (k : String) : Store :=
  ⟨fun q => if q = k then s.counters q - 1 else s.counters q, s.frozen⟩

/-- A store with no counters and no freeze flags. -/
def emptyStore : Store := ⟨fun _ => 0, fun _ => false⟩

/-- First-match association-list lookup (JS property read on an object
whose keys are distinct). -/
def lookupAssoc {α : Type} (m : List (String × α)) (k : String) : Option α :=
  (m.find? (fun p => p.1 == k)).map (fun p => p.2)

/-- The built-in windows (`this.customWindows` before any user extension). -/
def defaultWindows : List (String × Nat) :=
  [("minute", 60), ("hour", 3600), ("day", 86400), ("month", 2592000)]

/-- `getWindowTimestamp(window)`: `now - (now % windowSize)`; throws
`Invalid window: w` when the window is unregistered (or has size 0,
which the JS falsy test `!windowSize` also rejects). -/
def getWindowTimestamp (cw : List (String × Nat)) (now : Nat) (w : String) :
    Except String Nat :=
  match lookupAssoc cw w with
  | none => .error ("Invalid window: " ++ w)
  | some d => if d = 0 then .error ("Invalid window: " ++ w) else .ok (now - now % d)

/-- `getWindowExpiry(window)`: `windowStart + windowSize - now`. -/
def getWindowExpiry (cw : List (String × Nat)) (now : Nat) (w : String) :
    Except String Nat :=
  match getWindowTimestamp cw now w, lookupAssoc cw w with
  | .error e, _ => .error e
  | .ok start, some d => .ok (start + d - now)
  | .ok _, none => .error ("Invalid window: " ++ w)

/-- `getKey(apiKey, modelName, window)`: the counter key string. -/
def getKey (cw : List (String × Nat)) (now : Nat) (apiKey modelName w : String) :
    Except String String :=
  match getWindowTimestamp cw now w with
  | .error e => .error e
  | .ok ts => .ok ("rate:" ++ apiKey ++ ":" ++ modelName ++ ":" ++ w ++ ":" ++ toString ts)

/-- `getMetricKey(apiKey, modelName, type)`: the per-day metric key. -/
def getMetricKey (cw : List (String × Nat)) (now : Nat) (apiKey modelName ty : String) :
    Except String String :=
  match getWindowTimestamp cw now "day" with
  | .error e => .error e
  | .ok day => .ok ("metric:" ++ apiKey ++ ":" ++ modelName ++ ":" ++ ty ++ ":" ++ toString day)

/-- `updateMetrics(apiKey, modelName, type)`: increments (and re-TTLs)
the per-day metric counter; no-op when metrics are disabled.  In the
current limiter revision this method is declared but never invoked by
any other method of the class. -/
def updateMetrics (metricsEnabled : Bool) (cw : List (String × Nat)) (now : Nat)
    (s : Store) (apiKey modelName ty : String) : Except String Store :=
  if !metricsEnabled then .ok s
  else
    match getMetricKey cw now apiKey modelName ty, getWindowExpiry cw now "day" with
    | .error e, _ => .error e
    | .ok _, .error e => .error e
    | .ok k, .ok _expiry =>
      .ok ⟨fun q => if q = k then s.counters q + 1 else s.counters q, s.frozen⟩

/-- A model: a name and its insertion-ordered limits map. -/
structure Model where
  name : String
  limits : List (String × Int)
deriving DecidableEq

/-- One per-window row of the returned `usage` object. -/
structure Usage where
  used : Int
  remaining : Int
  limit : Int
  reset : Nat
deriving DecidableEq

/-- The value returned by `checkAndIncrement`.  In the frozen early
return the JS object leaves `borrowed` absent (`undefined`, falsy);
that is modelled as `false`. -/
structure CheckResult where
  isWithinLimits : Bool
  usage : List (String × Usage)
  borrowed : Bool
deriving DecidableEq

/-- One row of the local `keys` table built by `checkAndIncrement`
before the pipeline runs. -/
structure Entry where
  window : String
  key : String
  limit : Int
  expiry : Nat
deriving DecidableEq

/-- An `Entry` together with the count its `INCR` returned. -/
structure Counted where
  window : String
  key : String
  limit : Int
  expiry : Nat
  count : Int
deriving DecidableEq

/-- The freeze-flag key `freeze:apiKey:modelName`. -/
def freezeKey (apiKey modelName : String) : String :=
  "freeze:" ++ apiKey ++ ":" ++ modelName

/-- `isFrozen(apiKey, modelName)`: existence check on the freeze flag. -/
def isFrozen (s : Store) (apiKey modelName : String) : Bool :=
  s.frozen (freezeKey apiKey modelName)

/-- The setup loop of `checkAndIncrement`: computes each window's
counter key and TTL (either may throw on an unregistered window). -/
def buildEntries (cw : List (String × Nat)) (now : Nat) (apiKey modelName : String) :
    List (String × Int) → Except String (List Entry)
  | [] => .ok []
  | (w, l) :: rest =>
    match getKey cw now apiKey modelName w with
    | .error e => .error e
    | .ok k =>
      match getWindowExpiry cw now w with
      | .error e => .error e
      | .ok ex =>
        match buildEntries cw now apiKey modelName rest with
        | .error e => .error e
        | .ok es => .ok ({ window := w, key := k, limit := l, expiry := ex } :: es)

/-- The pipeline's `INCR` commands executed in submission order, each
result captured (`results[i * 2][1]`). -/
def runIncrs (s : Store) : List Entry → Store × List Counted
  | [] => (s, [])
  | e :: rest =>
    let s1 := (s.incr e.key).1
    let c := (s.incr e.key).2
    let r := runIncrs s1 rest
    (r.1, { window := e.window, key := e.key, limit := e.limit, expiry := e.expiry,
            count := c } :: r.2)

/-- The rollback pipeline: one `DECR` per entry. -/
def rollbackAll (s : Store) : List Entry → Store
  | [] => s
  | e :: rest => rollbackAll (s.decr e.key) rest

/-- The result-processing loop of `checkAndIncrement`, threading the
`usage`, `isWithinLimits` and `borrowed` accumulators. -/
def evalLoop (ab : Bool) : List Counted → List (String × Usage) → Bool → Bool →
    List (String × Usage) × Bool × Bool
  | [], usage, within, borrowed => (usage, within, borrowed)
  | c :: rest, usage, within, borrowed =>
    let usage' := usage ++
      [(c.window, { used := c.count, remaining := max 0 (c.limit - c.count),
                    limit := c.limit, reset := c.expiry })]
    if c.limit < c.count then
      if ab && !(c.window == "month") then
        evalLoop ab rest usage' within true
      else
        evalLoop ab rest usage' false borrowed
    else
      evalLoop ab rest usage' within borrowed

/-- `checkAndIncrement(apiKey, model, allowBorrowing)` of the current
limiter revision: freeze short-circuit, batched increment, per-window
evaluation with borrowing, rollback of every touched counter on
rejection.  (This revision records no metrics on any path: its
`updateMetrics` is declared but never called.) -/
def checkAndIncrement (cw : List (String × Nat)) (now : Nat) (s : Store)
    (apiKey : String) (model : Model) (allowBorrowing : Bool) :
    Except String (Store × CheckResult) :=
  if isFrozen s apiKey model.name then
    .ok (s, { isWithinLimits := false, usage := [], borrowed := false })
  else
    match buildEntries cw now apiKey model.name model.limits with
    | .error e => .error e
    | .ok es =>
      let s1 := (runIncrs s es).1
      let counted := (runIncrs s es).2
      let outcome := evalLoop allowBorrowing counted [] true false
      let within := outcome.2.1
      let s2 := if within then s1 else rollbackAll s1 es
      .ok (s2, { isWithinLimits := within, usage := outcome.1, borrowed := outcome.2.2 })

/-- A window passes the per-window test: within its limit, or over it
but absorbed by borrowing (non-`month` window, borrowing on). -/
def okOrBorrow (ab : Bool) (c : Counted) : Bool :=
  decide (c.count ≤ c.limit) || (ab && !(c.window == "month"))

theorem evalLoop_within_eq (ab : Bool) (cs : List Counted) :
    ∀ usage within borrowed,
      (evalLoop ab cs usage within borrowed).2.1 = (within && cs.all (okOrBorrow ab)) := by
  induction cs with
  | nil => intro u w b; simp [evalLoop]
  | cons c rest ih =>
    intro u w b
    by_cases h1 : c.limit < c.count
    · by_cases h2 : (ab && !(c.window == "month")) = true
      · simp [evalLoop, h1, h2, ih, okOrBorrow, not_lt.2, Nat.not_le,
          show ¬ c.count ≤ c.limit from not_le.2 h1]
      · simp only [Bool.not_eq_true] at h2
        simp [evalLoop, h1, h2, ih, okOrBorrow,
          show ¬ c.count ≤ c.limit from not_le.2 h1]
    · simp [evalLoop, h1, ih, okOrBorrow, not_lt.1 h1]

theorem evalLoop_borrowed_eq (ab : Bool) (cs : List Counted) :
    ∀ usage within borrowed,
      (evalLoop ab cs usage within borrowed).2.2 =
        (borrowed || cs.any (fun c =>
          decide (c.limit < c.count) && (ab && !(c.window == "month")))) := by
  induction cs with
  | nil => intro u w b; simp [evalLoop]
  | cons c rest ih =>
    intro u w b
    by_cases h1 : c.limit < c.count
    · by_cases h2 : (ab && !(c.window == "month")) = true
      · simp [evalLoop, h1, h2, ih]
      · simp only [Bool.not_eq_true] at h2
        simp [evalLoop, h1, h2, ih]
    · simp [evalLoop, h1, ih]

theorem okOrBorrow_iff (ab : Bool) (c : Counted) :
    okOrBorrow ab c = true ↔
      (c.count ≤ c.limit ∨ (ab = true ∧ c.window ≠ "month")) := by
  simp [okOrBorrow]

theorem runIncrs_counters (es : List Entry) :
    ∀ (s : Store) (k : String),
      ((runIncrs s es).1).counters k
        = s.counters k + ((es.filter (fun e => e.key == k)).length : Int) := by
  induction es with
  | nil => intro s k; simp [runIncrs]
  | cons e rest ih =>
    intro s k
    simp only [runIncrs]
    rw [ih]
    by_cases h : e.key = k
    · subst h
      simp [Store.incr, List.filter_cons]
      omega
    · simp [Store.incr, List.filter_cons, h, Ne.symm h]

theorem rollbackAll_counters (es : List Entry) :
    ∀ (s : Store) (k : String),
      (rollbackAll s es).counters k
        = s.counters k - ((es.filter (fun e => e.key == k)).length : Int) := by
  induction es with
  | nil => intro s k; simp [rollbackAll]
  | cons e rest ih =>
    intro s k
    simp only [rollbackAll]
    rw [ih]
    by_cases h : e.key = k
    · subst h
      simp [Store.decr, List.filter_cons]
      omega
    · simp [Store.decr, List.filter_cons, h, Ne.symm h]

theorem runIncrs_frozen (es : List Entry) :
    ∀ (s : Store), ((runIncrs s es).1).frozen = s.frozen := by
  induction es with
  | nil => intro s; simp [runIncrs]
  | cons e rest ih => intro s; simp only [runIncrs]; rw [ih]; simp [Store.incr]

theorem rollbackAll_frozen (es : List Entry) :
    ∀ (s : Store), (rollbackAll s es).frozen = s.frozen := by
  induction es with
  | nil => intro s; simp [rollbackAll]
  | cons e rest ih => intro s; simp only [rollbackAll]; rw [ih]; simp [Store.decr]

theorem buildEntries_windows (cw : List (String × Nat)) (now : Nat)
    (apiKey modelName : String) :
    ∀ (limits : List (String × Int)) (es : List Entry),
      buildEntries cw now apiKey modelName limits = .ok es →
      es.map Entry.window = limits.map Prod.fst := by
  intro limits
  induction limits with
  | nil => intro es h; simp [buildEntries] at h; simp [← h]
  | cons wl rest ih =>
    intro es h
    obtain ⟨w, l⟩ := wl
    simp only [buildEntries] at h
    cases hk : getKey cw now apiKey modelName w with
    | error e => rw [hk] at h; cases h
    | ok k =>
      rw [hk] at h
      cases hx : getWindowExpiry cw now w with
      | error e => rw [hx] at h; cases h
      | ok ex =>
        rw [hx] at h
        cases hr : buildEntries cw now apiKey modelName rest with
        | error e => rw [hr] at h; cases h
        | ok es' =>
          rw [hr] at h
          cases h
          simp [ih es' hr]

theorem runIncrs_windows (es : List Entry) :
    ∀ (s : Store), ((runIncrs s es).2).map Counted.window = es.map Entry.window := by
  induction es with
  | nil => intro s; simp [runIncrs]
  | cons e rest ih => intro s; simp [runIncrs, ih]

/-- Helper: a call whose result is rejected hands back a store equal to
the one it was given (frozen short-circuit, or full rollback). -/
theorem checkAndIncrement_rejected_store_eq
    {cw : List (String × Nat)} {now : Nat} {s : Store} {apiKey : String}
    {model : Model} {ab : Bool} {p : Store × CheckResult}
    (h : checkAndIncrement cw now s apiKey model ab = .ok p)
    (hr : p.2.isWithinLimits = false) : p.1 = s := by
  unfold checkAndIncrement at h
  cases hf : isFrozen s apiKey model.name with
  | true =>
    rw [hf] at h
    simp only [if_true] at h
    cases h
    rfl
  | false =>
    rw [hf] at h
    simp only [Bool.false_eq_true, if_false] at h
    cases hbe : buildEntries cw now apiKey model.name model.limits with
    | error e => rw [hbe] at h; cases h
    | ok es =>
      rw [hbe] at h
      simp only at h
      cases h
      simp only at hr
      rw [hr]
      simp only [Bool.false_eq_true, if_false]
      ext k
      · rw [rollbackAll_counters, runIncrs_counters]
        omega
      · rw [rollbackAll_frozen, runIncrs_frozen]

/-- C1: on an unfrozen candidate, `checkAndIncrement` accepts exactly
when every window's post-increment count is within its limit or is
absorbed by borrowing (borrowing on and window other than `month`); an
over-limit non-`month` window under borrowing sets `borrowed`, and an
over-limit `month` window rejects regardless of the borrowing flag.
`(runIncrs s es).2` is the list of per-window post-increment counts, in
the order of `model.limits` (first conjunct). -/
theorem checkAndIncrement_isWithinLimits_iff
    (cw : List (String × Nat)) (now : Nat) (s : Store) (apiKey : String)
    (model : Model) (ab : Bool) (p : Store × CheckResult) (es : List Entry)
    (hfz : isFrozen s apiKey model.name = false)
    (hes : buildEntries cw now apiKey model.name model.limits = .ok es)
    (h : checkAndIncrement cw now s apiKey model ab = .ok p) :
    ((runIncrs s es).2.map Counted.window = model.limits.map Prod.fst)
    ∧ (p.2.isWithinLimits = true ↔
        ∀ c ∈ (runIncrs s es).2, c.count ≤ c.limit ∨ (ab = true ∧ c.window ≠ "month"))
    ∧ (p.2.borrowed = true ↔
        (ab = true ∧ ∃ c ∈ (runIncrs s es).2, c.limit < c.count ∧ c.window ≠ "month")) := by
  unfold checkAndIncrement at h
  rw [hfz] at h
  simp only [Bool.false_eq_true, if_false] at h
  rw [hes] at h
  simp only at h
  cases h
  refine ⟨?_, ?_, ?_⟩
  · rw [runIncrs_windows, buildEntries_windows cw now apiKey model.name model.limits es hes]
  · simp only [evalLoop_within_eq, Bool.true_and, List.all_eq_true]
    constructor
    · intro hall c hc
      exact (okOrBorrow_iff ab c).1 (hall c hc)
    · intro hall c hc
      exact (okOrBorrow_iff ab c).2 (hall c hc)
  · simp only [evalLoop_borrowed_eq, Bool.false_or, List.any_eq_true]
    constructor
    · rintro ⟨c, hc, hcp⟩
      simp only [Bool.and_eq_true, decide_eq_true_eq, Bool.not_eq_true', beq_eq_false_iff_ne] at hcp
      exact ⟨hcp.2.1, c, hc, hcp.1, hcp.2.2⟩
    · rintro ⟨hab, c, hc, h1, h2⟩
      refine ⟨c, hc, ?_⟩
      simp only [Bool.and_eq_true, decide_eq_true_eq, Bool.not_eq_true', beq_eq_false_iff_ne]
      exact ⟨h1, hab, h2⟩

/-- A one-window model comfortably within its limit, for concrete runs. -/
def testModel1 : Model := ⟨"m1", [("minute", 5)]⟩

/-- A one-window model whose limit 0 forces rejection on first use. -/
def testModel0 : Model := ⟨"m1", [("minute", 0)]⟩

/-- The entry `checkAndIncrement` builds for `testModel1` at `now = 0`. -/
def testEntry1 : Entry := ⟨"minute", "rate:k1:m1:minute:0", 5, 60⟩

/-- The concrete outcome of the accepting run used by witnesses. -/
def testP1 : Store × CheckResult :=
  (checkAndIncrement defaultWindows 0 emptyStore "k1" testModel1 false).toOption.getD
    (emptyStore, ⟨false, [], false⟩)

/-- The concrete outcome of the rejecting run used by witnesses. -/
def testP0 : Store × CheckResult :=
  (checkAndIncrement defaultWindows 0 emptyStore "k1" testModel0 false).toOption.getD
    (emptyStore, ⟨false, [], false⟩)

/-- Witness for C1 at a concrete accepting run. -/
theorem checkAndIncrement_isWithinLimits_iff_witness :
    isFrozen emptyStore "k1" testModel1.name = false
    ∧ buildEntries defaultWindows 0 "k1" testModel1.name testModel1.limits = .ok [testEntry1]
    ∧ (((runIncrs emptyStore [testEntry1]).2.map Counted.window = testModel1.limits.map Prod.fst)
      ∧ (testP1.2.isWithinLimits = true ↔
          ∀ c ∈ (runIncrs emptyStore [testEntry1]).2,
            c.count ≤ c.limit ∨ (false = true ∧ c.window ≠ "month"))
      ∧ (testP1.2.borrowed = true ↔
          (false = true ∧ ∃ c ∈ (runIncrs emptyStore [testEntry1]).2,
            c.limit < c.count ∧ c.window ≠ "month"))) :=
  ⟨rfl, rfl,
    checkAndIncrement_isWithinLimits_iff defaultWindows 0 emptyStore "k1" testModel1 false
      testP1 [testEntry1] rfl rfl rfl⟩

/-- C2: a rejected `checkAndIncrement` (in this sequential model, i.e.
absent concurrent interleaving) leaves every counter at its pre-attempt
value: the rollback pipeline decrements exactly the keys the attempt
incremented. -/
theorem rejected_attempt_restores_counters
    (cw : List (String × Nat)) (now : Nat) (s : Store) (apiKey : String)
    (model : Model) (ab : Bool) (p : Store × CheckResult)
    (h : checkAndIncrement cw now s apiKey model ab = .ok p)
    (hr : p.2.isWithinLimits = false) :
    ∀ k, p.1.counters k = s.counters k := by
  intro k
  rw [checkAndIncrement_rejected_store_eq h hr]

/-- Witness for C2 at a concrete rejecting run. -/
theorem rejected_attempt_restores_counters_witness :
    testP0.2.isWithinLimits = false
    ∧ testP0.1.counters "rate:k1:m1:minute:0" = emptyStore.counters "rate:k1:m1:minute:0" :=
  ⟨by decide,
    rejected_attempt_restores_counters defaultWindows 0 emptyStore "k1" testModel0 false
      testP0 rfl (by decide) "rate:k1:m1:minute:0"⟩

/-- C3: on a frozen (apiKey, model) pair, `checkAndIncrement` returns
`isWithinLimits = false` with empty usage and hands back the very store
it was given — no counter of any kind (rate or metric) is touched and
the increment/evaluate protocol is never entered. -/
theorem frozen_checkAndIncrement_noop
    (cw : List (String × Nat)) (now : Nat) (s : Store) (apiKey : String)
    (model : Model) (ab : Bool)
    (hfz : isFrozen s apiKey model.name = true) :
    checkAndIncrement cw now s apiKey model ab
      = .ok (s, { isWithinLimits := false, usage := [], borrowed := false }) := by
  unfold checkAndIncrement
  rw [hfz]
  simp

/-- A store holding exactly the freeze flag for (`k1`, `m1`). -/
def frozenTestStore : Store := ⟨fun _ => 0, fun q => q == freezeKey "k1" "m1"⟩

/-- Witness for C3 at a concrete frozen store. -/
theorem frozen_checkAndIncrement_noop_witness :
    isFrozen frozenTestStore "k1" testModel1.name = true
    ∧ checkAndIncrement defaultWindows 0 frozenTestStore "k1" testModel1 false
        = .ok (frozenTestStore, ⟨false, [], false⟩) :=
  ⟨rfl,
    frozen_checkAndIncrement_noop defaultWindows 0 frozenTestStore "k1" testModel1 false rfl⟩

/-- C5 (code bug): in the current limiter revision `checkAndIncrement`
records NO metric on any path — its `updateMetrics` is declared but
never called.  Evaluated at a rejecting run (limit 0) and an accepting
run (limit 5): the per-day metric counters for `limit_reached`,
`success` and `borrowed` all remain 0 in the returned store, although
the spec (and the previous revision) record exactly one metric per
call.  The final conjunct pins down the metric keys these runs would
have had to touch. -/
theorem checkAndIncrement_records_no_metric :
    ((checkAndIncrement defaultWindows 0 emptyStore "k1" testModel0 false).toOption.map
        (fun p => (p.2.isWithinLimits,
          p.1.counters "metric:k1:m1:limit_reached:0",
          p.1.counters "metric:k1:m1:success:0",
          p.1.counters "metric:k1:m1:borrowed:0"))) = some (false, 0, 0, 0)
    ∧ ((checkAndIncrement defaultWindows 0 emptyStore "k1" testModel1 false).toOption.map
        (fun p => (p.2.isWithinLimits,
          p.1.counters "metric:k1:m1:limit_reached:0",
          p.1.counters "metric:k1:m1:success:0",
          p.1.counters "metric:k1:m1:borrowed:0"))) = some (true, 0, 0, 0)
    ∧ getMetricKey defaultWindows 0 "k1" "m1" "limit_reached"
        = .ok "metric:k1:m1:limit_reached:0"
    ∧ getMetricKey defaultWindows 0 "k1" "m1" "success" = .ok "metric:k1:m1:success:0" := by
  refine ⟨by decide, by decide, rfl, rfl⟩

/-- C10: with borrowing enabled, a single call can return `borrowed =
true` together with `isWithinLimits = false`: here the non-final
`minute` window sets `borrowed` and the over-limit `month` window then
rejects, yet `borrowed` is never cleared.  So `borrowed = true` alone
does not imply admission. -/
theorem borrowed_with_rejection_possible :
    ((checkAndIncrement defaultWindows 0 emptyStore "k1"
        ⟨"m1", [("minute", 0), ("month", 0)]⟩ true).toOption.map
      (fun p => (p.2.borrowed, p.2.isWithinLimits))) = some (true, false) := by
  decide

/-- C6 counterexample: at the start of a bucket (`now = 120`, duration
60) `getWindowExpiry` returns the full duration 60, which is not in the
claimed half-open interval `[0, 60)`. -/
theorem windowExpiry_not_lt_duration :
    getWindowExpiry defaultWindows 120 "minute" = .ok 60
    ∧ lookupAssoc defaultWindows "minute" = some 60
    ∧ ¬ (60 < 60) :=
  ⟨rfl, rfl, by decide⟩

/-- C6 (amended): for a registered window of duration `d > 0`,
`getWindowTimestamp` is `now - now % d` (the floor of `now` to a
multiple of `d`), constant across a `d`-second bucket and larger by
exactly `d` one bucket later; `getWindowExpiry` lies in the half-open
interval `(0, d]` (not `[0, d)`: it equals `d` at a bucket start); both
operations fail with the `Invalid window` configuration error on an
unregistered name. -/
theorem window_alignment_spec
    (cw : List (String × Nat)) (now : Nat) (w : String) (d : Nat)
    (hw : lookupAssoc cw w = some d) (hd : 0 < d) :
    getWindowTimestamp cw now w = .ok (now - now % d)
    ∧ now - now % d = d * (now / d)
    ∧ getWindowTimestamp cw (now + d) w = .ok ((now - now % d) + d)
    ∧ (∀ n1 n2 : Nat, n1 / d = n2 / d →
        getWindowTimestamp cw n1 w = getWindowTimestamp cw n2 w)
    ∧ (∃ e, getWindowExpiry cw now w = .ok e ∧ 0 < e ∧ e ≤ d)
    ∧ (∀ w', lookupAssoc cw w' = (none : Option Nat) →
        getWindowTimestamp cw now w' = .error ("Invalid window: " ++ w')
        ∧ getWindowExpiry cw now w' = .error ("Invalid window: " ++ w')) := by
  have hd' : ¬ d = 0 := Nat.pos_iff_ne_zero.1 hd
  refine ⟨?_, ?_, ?_, ?_, ?_, ?_⟩
  · simp [getWindowTimestamp, hw, hd']
  · have h := Nat.div_add_mod now d
    omega
  · have h1 : (now + d) % d = now % d := Nat.add_mod_right now d
    have h2 : now % d ≤ now := Nat.mod_le now d
    simp [getWindowTimestamp, hw, hd', h1]
    omega
  · intro n1 n2 hq
    have h1 := Nat.div_add_mod n1 d
    have h2 := Nat.div_add_mod n2 d
    rw [hq] at h1
    simp only [getWindowTimestamp, hw, hd', if_false]
    have : n1 - n1 % d = n2 - n2 % d := by omega
    rw [this]
  · refine ⟨now - now % d + d - now, ?_, ?_, ?_⟩
    · simp [getWindowExpiry, getWindowTimestamp, hw, hd']
    · have h1 : now % d < d := Nat.mod_lt now hd
      have h2 : now % d ≤ now := Nat.mod_le now d
      omega
    · have h2 : now % d ≤ now := Nat.mod_le now d
      omega
  · intro w' hw'
    constructor
    · simp [getWindowTimestamp, hw']
    · simp [getWindowExpiry, getWindowTimestamp, hw']

/-- Witness for the amended C6 at the `minute` window and `now = 90`. -/
theorem window_alignment_spec_witness :
    lookupAssoc defaultWindows "minute" = some 60 ∧ 0 < 60
    ∧ (getWindowTimestamp defaultWindows 90 "minute" = .ok (90 - 90 % 60)
      ∧ 90 - 90 % 60 = 60 * (90 / 60)
      ∧ getWindowTimestamp defaultWindows (90 + 60) "minute" = .ok ((90 - 90 % 60) + 60)
      ∧ (∀ n1 n2 : Nat, n1 / 60 = n2 / 60 →
          getWindowTimestamp defaultWindows n1 "minute"
            = getWindowTimestamp defaultWindows n2 "minute")
      ∧ (∃ e, getWindowExpiry defaultWindows 90 "minute" = .ok e ∧ 0 < e ∧ e ≤ 60)
      ∧ (∀ w', lookupAssoc defaultWindows w' = (none : Option Nat) →
          getWindowTimestamp defaultWindows 90 w' = .error ("Invalid window: " ++ w')
          ∧ getWindowExpiry defaultWindows 90 w' = .error ("Invalid window: " ++ w'))) :=
  ⟨rfl, by decide, window_alignment_spec defaultWindows 90 "minute" 60 rfl (by decide)⟩

/-- The three selection strategies. -/
inductive Strategy where
  | ascending
  | random
  | roundRobin
deriving DecidableEq

/-- An API: a name with its ordered keys and ordered models. -/
structure Api where
  name : String
  keys : List String
  models : List Model
deriving DecidableEq

/-- The limiter's configuration and process-local state. -/
structure Limiter where
  apis : List Api
  customWindows : List (String × Nat)
  keyStrategy : Strategy
  modelStrategy : Strategy
  lastKeyIndices : List (String × Nat)
  lastModelIndices : List (String × Nat)
  metricsEnabled : Bool
  defaultBatchSize : Nat
deriving DecidableEq

/-- Swap two positions of a list (no-op when an index is out of range). -/
def swapAt {α : Type} (l : List α) (i j : Nat) : List α :=
  match l.get? i, l.get? j with
  | some a, some b => (l.set i b).set j a
  | _, _ => l

/-- The Fisher-Yates loop of the `random` strategy; `Math.random` draws
are modelled by the stream `rnd` (`j = head % (i + 1)`). -/
def shuffleGo {α : Type} (rnd : List Nat) (l : List α) : Nat → List α
  | 0 => l
  | i + 1 => shuffleGo rnd.tail (swapAt l (i + 1) (rnd.headD 0 % (i + 2))) i

/-- `random` strategy: a shuffled copy of the items. -/
def shuffle {α : Type} (rnd : List Nat) (l : List α) : List α :=
  shuffleGo rnd l (l.length - 1)

/-- `getNextRoundRobinIndex(currentIndex, length)`. -/
def getNextRoundRobinIndex (currentIndex : Int) (length : Nat) : Int :=
  (currentIndex + 1) % (length : Int)

/-- The cursor-table key `apiName-type`. -/
def rrKey (apiName ty : String) : String := apiName ++ "-" ++ ty

/-- JS object property assignment on a cursor table. -/
def setIdx (m : List (String × Nat)) (k : String) (v : Nat) : List (String × Nat) :=
  if (m.find? (fun p => p.1 == k)).isSome then
    m.map (fun p => if p.1 == k then (k, v) else p)
  else m ++ [(k, v)]

/-- `getOrderedItems(items, apiName, type)`: the strategy dispatch.
`ascending` copies, `random` shuffles without touching cursor state,
`round-robin` initializes an absent cursor slot to -1, advances it by
one position (wrapping) and rotates the items to start at the new
cursor.  (On an empty item list the JS cursor arithmetic degenerates to
NaN; rotation claims assume at least one item.) -/
def getOrderedItems {α : Type} (strat : Strategy) (rnd : List Nat)
    (idxMap : List (String × Nat)) (apiName ty : String) (items : List α) :
    List α × List (String × Nat) :=
  match strat with
  | .ascending => (items, idxMap)
  | .random => (shuffle rnd items, idxMap)
  | .roundRobin =>
    let k := rrKey apiName ty
    let cur : Int :=
      match lookupAssoc idxMap k with
      | none => -1
      | some i => (i : Int)
    let next : Nat := (getNextRoundRobinIndex cur items.length).toNat
    (items.drop next ++ items.take next, setIdx idxMap k next)

/-- The cursor table after one round-robin call. -/
def rrStep {α : Type} (apiName ty : String) (items : List α)
    (m : List (String × Nat)) : List (String × Nat) :=
  (getOrderedItems .roundRobin [] m apiName ty items).2

/-- The cursor table after `k` consecutive round-robin calls. -/
def rrIterate {α : Type} (apiName ty : String) (items : List α)
    (m : List (String × Nat)) : Nat → List (String × Nat)
  | 0 => m
  | k + 1 => rrIterate apiName ty items (rrStep apiName ty items m) k

theorem lookupAssoc_cons_pos {α : Type} (p : String × α) (m : List (String × α))
    (k : String) (h : (p.1 == k) = true) : lookupAssoc (p :: m) k = some p.2 := by
  unfold lookupAssoc
  rw [@List.find?_cons_of_pos _ (fun q => q.1 == k) p m h]
  rfl

theorem lookupAssoc_cons_neg {α : Type} (p : String × α) (m : List (String × α))
    (k : String) (h : (p.1 == k) = false) : lookupAssoc (p :: m) k = lookupAssoc m k := by
  unfold lookupAssoc
  rw [@List.find?_cons_of_neg _ (fun q => q.1 == k) p m (by simp [h])]

theorem lookupAssoc_map_set (k : String) (v : Nat) :
    ∀ (m : List (String × Nat)), (m.find? (fun p => p.1 == k)).isSome = true →
      lookupAssoc (m.map (fun p => if p.1 == k then (k, v) else p)) k = some v := by
  intro m
  induction m with
  | nil => intro h; simp at h
  | cons p rest ih =>
    intro h
    rw [List.map_cons]
    by_cases hp : (p.1 == k) = true
    · rw [if_pos hp, lookupAssoc_cons_pos ((k, v)) _ k (by simp)]
    · have hp' : (p.1 == k) = false := by simpa using hp
      rw [@List.find?_cons_of_neg _ (fun q => q.1 == k) p rest (by simp [hp'])] at h
      rw [if_neg (by simp [hp']), lookupAssoc_cons_neg p _ k hp']
      exact ih h

theorem lookupAssoc_append_self (k : String) (v : Nat) :
    ∀ (m : List (String × Nat)), m.find? (fun p => p.1 == k) = none →
      lookupAssoc (m ++ [(k, v)]) k = some v := by
  intro m
  induction m with
  | nil =>
    intro _
    rw [List.nil_append, lookupAssoc_cons_pos ((k, v)) [] k (by simp)]
  | cons p rest ih =>
    intro h
    have hp' : (p.1 == k) = false := by
      by_contra hc
      have hc' : (p.1 == k) = true := by simpa using hc
      rw [@List.find?_cons_of_pos _ (fun q => q.1 == k) p rest hc'] at h
      cases h
    rw [@List.find?_cons_of_neg _ (fun q => q.1 == k) p rest (by simp [hp'])] at h
    rw [List.cons_append, lookupAssoc_cons_neg p _ k hp']
    exact ih h

theorem lookupAssoc_setIdx (m : List (String × Nat)) (k : String) (v : Nat) :
    lookupAssoc (setIdx m k v) k = some v := by
  unfold setIdx
  by_cases hifs : (m.find? (fun p => p.1 == k)).isSome = true
  · rw [if_pos hifs]
    exact lookupAssoc_map_set k v m hifs
  · rw [if_neg hifs]
    exact lookupAssoc_append_self k v m
      (Option.not_isSome_iff_eq_none.1 (by simpa using hifs))

theorem nextIdx_eq (i N : Nat) (_hN : 0 < N) :
    (getNextRoundRobinIndex (i : Int) N).toNat = (i + 1) % N := by
  unfold getNextRoundRobinIndex
  have h1 : ((i : Int) + 1) = ((i + 1 : Nat) : Int) := by push_cast; ring
  rw [h1, ← Int.natCast_mod]
  exact Int.toNat_natCast _

theorem rrStep_lookup {α : Type} (a t : String) (items : List α)
    (m : List (String × Nat)) (i : Nat)
    (h : lookupAssoc m (rrKey a t) = some i) (hN : 0 < items.length) :
    lookupAssoc (rrStep a t items m) (rrKey a t)
      = some ((i + 1) % items.length) := by
  unfold rrStep getOrderedItems
  simp only [h, nextIdx_eq i items.length hN]
  exact lookupAssoc_setIdx m (rrKey a t) ((i + 1) % items.length)

theorem rrIterate_lookup {α : Type} (a t : String) (items : List α)
    (hN : 0 < items.length) :
    ∀ (k : Nat) (m : List (String × Nat)) (i : Nat), i < items.length →
      lookupAssoc m (rrKey a t) = some i →
      lookupAssoc (rrIterate a t items m k) (rrKey a t)
        = some ((i + k) % items.length) := by
  intro k
  induction k with
  | zero => intro m i hi h; simpa [rrIterate, Nat.mod_eq_of_lt hi] using h
  | succ k ih =>
    intro m i hi h
    have hstep := rrStep_lookup a t items m i h hN
    have h2 := ih (rrStep a t items m) ((i + 1) % items.length)
      (Nat.mod_lt _ hN) hstep
    have h3 : ((i + 1) % items.length + k) % items.length
        = (i + (k + 1)) % items.length := by
      have := (Nat.mod_modEq (i + 1) items.length).add_right k
      unfold Nat.ModEq at this
      rw [this]
      congr 1
      omega
    rw [rrIterate, h2, h3]

theorem rr_starts_distinct (N i : Nat) (k1 k2 : Nat)
    (h1 : k1 < N) (h2 : k2 < N) (hne : k1 ≠ k2) :
    (i + k1 + 1) % N ≠ (i + k2 + 1) % N := by
  intro heq
  rcases Nat.lt_or_ge k1 k2 with hlt | hge
  · have hmod : (i + k1 + 1) ≡ (i + k2 + 1) [MOD N] := heq
    have hdvd := (Nat.modEq_iff_dvd' (by omega)).1 hmod
    have hsub : (i + k2 + 1) - (i + k1 + 1) = k2 - k1 := by omega
    rw [hsub] at hdvd
    have := Nat.le_of_dvd (by omega) hdvd
    omega
  · have hlt : k2 < k1 := by omega
    have hmod : (i + k2 + 1) ≡ (i + k1 + 1) [MOD N] := heq.symm
    have hdvd := (Nat.modEq_iff_dvd' (by omega)).1 hmod
    have hsub : (i + k1 + 1) - (i + k2 + 1) = k1 - k2 := by omega
    rw [hsub] at hdvd
    have := Nat.le_of_dvd (by omega) hdvd
    omega

/-- C7: under the round-robin strategy each call advances the stored
cursor by exactly one position modulo the item count (first conjunct:
the cursor after `k` calls) and returns the items rotated to start at
the new cursor position (second conjunct); over `N` consecutive calls
the `N` starting positions `(i + k + 1) % N`, `k < N`, are pairwise
distinct, so every position is used exactly once, in fixed cyclic
order, before any repeats (third conjunct). -/
theorem roundRobin_rotation_spec {α : Type} (rnd : List Nat) (a t : String)
    (items : List α) (m : List (String × Nat)) (i : Nat)
    (h : lookupAssoc m (rrKey a t) = some i) (hi : i < items.length)
    (hN : 0 < items.length) :
    (∀ k, lookupAssoc (rrIterate a t items m k) (rrKey a t)
        = some ((i + k) % items.length))
    ∧ (∀ k, (getOrderedItems .roundRobin rnd (rrIterate a t items m k) a t items).1
        = items.drop ((i + k + 1) % items.length)
          ++ items.take ((i + k + 1) % items.length))
    ∧ (∀ k1 k2, k1 < items.length → k2 < items.length → k1 ≠ k2 →
        (i + k1 + 1) % items.length ≠ (i + k2 + 1) % items.length) := by
  refine ⟨fun k => rrIterate_lookup a t items hN k m i hi h, fun k => ?_, ?_⟩
  · have hcur := rrIterate_lookup a t items hN k m i hi h
    unfold getOrderedItems
    simp only [hcur, nextIdx_eq ((i + k) % items.length) items.length hN]
    have h3 : ((i + k) % items.length + 1) % items.length
        = (i + k + 1) % items.length := by
      have := (Nat.mod_modEq (i + k) items.length).add_right 1
      exact this
    rw [h3]
  · exact fun k1 k2 h1 h2 hne => rr_starts_distinct items.length i k1 k2 h1 h2 hne

/-- Witness for C7: three items, cursor at 1. -/
theorem roundRobin_rotation_spec_witness :
    lookupAssoc [("a-model", 1)] (rrKey "a" "model") = some 1
    ∧ (1 < 3 ∧ 0 < 3)
    ∧ ((∀ k, lookupAssoc (rrIterate "a" "model" ["x", "y", "z"] [("a-model", 1)] k)
          (rrKey "a" "model") = some ((1 + k) % 3))
      ∧ (∀ k, (getOrderedItems .roundRobin [] (rrIterate "a" "model" ["x", "y", "z"]
            [("a-model", 1)] k) "a" "model" ["x", "y", "z"]).1
          = ["x", "y", "z"].drop ((1 + k + 1) % 3) ++ ["x", "y", "z"].take ((1 + k + 1) % 3))
      ∧ (∀ k1 k2, k1 < 3 → k2 < 3 → k1 ≠ k2 → (1 + k1 + 1) % 3 ≠ (1 + k2 + 1) % 3)) :=
  ⟨rfl, ⟨by decide, by decide⟩,
    roundRobin_rotation_spec [] "a" "model" ["x", "y", "z"] [("a-model", 1)] 1
      rfl (by decide) (by decide)⟩

/-- `findApi(apiName)`: error when the API is not configured. -/
def findApi (apis : List Api) (apiName : String) : Except String Api :=
  match apis.find? (fun a => a.name == apiName) with
  | some a => .ok a
  | none => .error ("API \"" ++ apiName ++ "\" not found")

/-- The object `getModel`/`getBatch` return per accepted candidate
(`limits` holds the per-window usage). -/
structure Picked where
  key : String
  model : String
  limits : List (String × Usage)
  borrowed : Bool
deriving DecidableEq

/-- The inner key loop of `getModel`: first accepted key wins. -/
def tryKeys (cw : List (String × Nat)) (now : Nat) (s : Store) (model : Model)
    (keys : List String) (ab : Bool) : Except String (Store × Option Picked) :=
  match keys with
  | [] => .ok (s, none)
  | k :: rest =>
    match checkAndIncrement cw now s k model ab with
    | .error e => .error e
    | .ok p =>
      if p.2.isWithinLimits then
        .ok (p.1, some ⟨k, model.name, p.2.usage, p.2.borrowed⟩)
      else
        tryKeys cw now p.1 model rest ab

/-- The outer model loop of `getModel`. -/
def tryModels (cw : List (String × Nat)) (now : Nat) (s : Store)
    (models : List Model) (keys : List String) (ab : Bool) :
    Except String (Store × Option Picked) :=
  match models with
  | [] => .ok (s, none)
  | m :: rest =>
    match tryKeys cw now s m keys ab with
    | .error e => .error e
    | .ok q =>
      match q.2 with
      | some p => .ok (q.1, some p)
      | none => tryModels cw now q.1 rest keys ab

/-- `getModel(apiName, allowBorrowing)`: order both dimensions by their
strategies, then iterate models (outer) and keys (inner), returning the
first accepted pair or `none` (the JS `null`) when every pair rejects. -/
def getModel (L : Limiter) (now : Nat) (rndM rndK : List Nat) (s : Store)
    (apiName : String) (ab : Bool) :
    Except String (Limiter × Store × Option Picked) :=
  match findApi L.apis apiName with
  | .error e => .error e
  | .ok api =>
    let om := getOrderedItems L.modelStrategy rndM L.lastModelIndices apiName "model" api.models
    let ok := getOrderedItems L.keyStrategy rndK L.lastKeyIndices apiName "key" api.keys
    let L' := { L with lastModelIndices := om.2, lastKeyIndices := ok.2 }
    match tryModels L.customWindows now s om.1 ok.1 ab with
    | .error e => .error e
    | .ok q => .ok (L', q.1, q.2)

/-- The (key, model) candidates in getModel's visit order: models in
the outer loop, keys in the inner loop. -/
def pairsOf : List Model → List String → List (String × Model)
  | [], _ => []
  | m :: ms, keys => keys.map (fun k => (k, m)) ++ pairsOf ms keys

/-- The candidate is evaluated against store `s` and rejected. -/
def rejectsAt (cw : List (String × Nat)) (now : Nat) (s : Store)
    (pr : String × Model) (ab : Bool) : Prop :=
  ∃ q : Store × CheckResult,
    checkAndIncrement cw now s pr.1 pr.2 ab = .ok q ∧ q.2.isWithinLimits = false

theorem tryKeys_spec (cw : List (String × Nat)) (now : Nat) (model : Model)
    (ab : Bool) :
    ∀ (keys : List String) (s s' : Store) (res : Option Picked),
      tryKeys cw now s model keys ab = .ok (s', res) →
      (res = none → s' = s ∧ ∀ k ∈ keys, rejectsAt cw now s (k, model) ab)
      ∧ (∀ pk, res = some pk →
          ∃ pre k post, keys = pre ++ k :: post
            ∧ (∀ k' ∈ pre, rejectsAt cw now s (k', model) ab)
            ∧ ∃ p : Store × CheckResult,
                checkAndIncrement cw now s k model ab = .ok p
                ∧ p.2.isWithinLimits = true
                ∧ s' = p.1
                ∧ pk = ⟨k, model.name, p.2.usage, p.2.borrowed⟩) := by
  intro keys
  induction keys with
  | nil =>
    intro s s' res h
    obtain ⟨h1, h2⟩ : s = s' ∧ (none : Option Picked) = res := by
      simpa [tryKeys] using h
    subst h1; subst h2
    refine ⟨fun _ => ⟨rfl, by simp⟩, fun pk hpk => by cases hpk⟩
  | cons k rest ih =>
    intro s s' res h
    simp only [tryKeys] at h
    cases hc : checkAndIncrement cw now s k model ab with
    | error e => rw [hc] at h; cases h
    | ok p =>
      rw [hc] at h
      dsimp only at h
      by_cases hw : p.2.isWithinLimits = true
      · rw [if_pos hw] at h
        obtain ⟨h1, h2⟩ : p.1 = s'
            ∧ (some (⟨k, model.name, p.2.usage, p.2.borrowed⟩ : Picked)) = res := by
          simpa using h
        constructor
        · intro hres; rw [← h2] at hres; cases hres
        · intro pk hres
          rw [← h2] at hres
          refine ⟨[], k, rest, rfl, by simp, p, hc, hw, h1.symm, ?_⟩
          exact (Option.some.inj hres).symm
      · have hw' : p.2.isWithinLimits = false := by simpa using hw
        rw [if_neg hw] at h
        have hps : p.1 = s := checkAndIncrement_rejected_store_eq hc hw'
        rw [hps] at h
        have hres := ih s s' res h
        constructor
        · intro hn
          obtain ⟨hs, hall⟩ := hres.1 hn
          refine ⟨hs, fun k' hk' => ?_⟩
          rcases List.mem_cons.1 hk' with rfl | hmem
          · exact ⟨p, hc, hw'⟩
          · exact hall k' hmem
        · intro pk hpk
          obtain ⟨pre, k0, post, hsplit, hpre, hacc⟩ := hres.2 pk hpk
          refine ⟨k :: pre, k0, post, by rw [List.cons_append, hsplit], ?_, hacc⟩
          intro k' hk'
          rcases List.mem_cons.1 hk' with rfl | hmem
          · exact ⟨p, hc, hw'⟩
          · exact hpre k' hmem

theorem tryModels_spec (cw : List (String × Nat)) (now : Nat) (keys : List String)
    (ab : Bool) :
    ∀ (models : List Model) (s s' : Store) (res : Option Picked),
      tryModels cw now s models keys ab = .ok (s', res) →
      (res = none → s' = s ∧ ∀ pr ∈ pairsOf models keys, rejectsAt cw now s pr ab)
      ∧ (∀ pk, res = some pk →
          ∃ pre pr post, pairsOf models keys = pre ++ pr :: post
            ∧ (∀ q ∈ pre, rejectsAt cw now s q ab)
            ∧ ∃ p : Store × CheckResult,
                checkAndIncrement cw now s pr.1 pr.2 ab = .ok p
                ∧ p.2.isWithinLimits = true ∧ s' = p.1
                ∧ pk = ⟨pr.1, pr.2.name, p.2.usage, p.2.borrowed⟩) := by
  intro models
  induction models with
  | nil =>
    intro s s' res h
    obtain ⟨h1, h2⟩ : s = s' ∧ (none : Option Picked) = res := by
      simpa [tryModels] using h
    subst h1; subst h2
    exact ⟨fun _ => ⟨rfl, by simp [pairsOf]⟩, fun pk hpk => by cases hpk⟩
  | cons m ms ih =>
    intro s s' res h
    simp only [tryModels] at h
    cases hq : tryKeys cw now s m keys ab with
    | error e => rw [hq] at h; cases h
    | ok q =>
      rw [hq] at h
      dsimp only at h
      have hksp := tryKeys_spec cw now m ab keys s q.1 q.2 (by rw [hq])
      cases hq2 : q.2 with
      | some p0 =>
        rw [hq2] at h
        dsimp only at h
        obtain ⟨h1, h2⟩ : q.1 = s' ∧ (some p0 : Option Picked) = res := by
          simpa using h
        constructor
        · intro hres; rw [← h2] at hres; cases hres
        · intro pk hres
          rw [← h2] at hres
          have hpk : p0 = pk := Option.some.inj hres
          obtain ⟨preK, k0, postK, hsplit, hpre, p, hacc, hwp, hs1, hpick⟩ :=
            hksp.2 p0 hq2
          refine ⟨preK.map (fun k => (k, m)), (k0, m),
            (postK.map (fun k => (k, m))) ++ pairsOf ms keys, ?_, ?_, p, hacc, hwp,
            h1.symm.trans hs1, ?_⟩
          · simp [pairsOf, hsplit]
          · intro q' hq'
            obtain ⟨k', hk', rfl⟩ := List.mem_map.1 hq'
            exact hpre k' hk'
          · rw [← hpk]; exact hpick
      | none =>
        rw [hq2] at h
        dsimp only at h
        obtain ⟨hs, hall⟩ := hksp.1 hq2
        rw [hs] at h
        have hrec := ih s s' res h
        constructor
        · intro hn
          obtain ⟨hs', hall'⟩ := hrec.1 hn
          refine ⟨hs', fun pr hpr => ?_⟩
          have hpr' : (∃ a ∈ keys, (a, m) = pr) ∨ pr ∈ pairsOf ms keys := by
            simpa [pairsOf] using hpr
          rcases hpr' with ⟨k', hk', rfl⟩ | hm
          · exact hall k' hk'
          · exact hall' pr hm
        · intro pk hpk
          obtain ⟨pre, pr, post, hsplit, hpre, hacc⟩ := hrec.2 pk hpk
          refine ⟨keys.map (fun k => (k, m)) ++ pre, pr, post, ?_, ?_, hacc⟩
          · simp [pairsOf, hsplit]
          · intro q' hq'
            rcases List.mem_append.1 hq' with hm | hm
            · obtain ⟨k', hk', rfl⟩ := List.mem_map.1 hm
              exact hall k' hk'
            · exact hpre q' hm

theorem tryKeys_all_rejected (cw : List (String × Nat)) (now : Nat) (m : Model)
    (ab : Bool) :
    ∀ (keys : List String) (s : Store),
      (∀ k ∈ keys, rejectsAt cw now s (k, m) ab) →
      tryKeys cw now s m keys ab = .ok (s, none) := by
  intro keys
  induction keys with
  | nil => intro s _; rfl
  | cons k rest ih =>
    intro s hall
    obtain ⟨p, hc, hw'⟩ := hall k (List.mem_cons_self k rest)
    simp only [tryKeys]
    rw [hc]
    dsimp only
    rw [if_neg (by simp [hw'])]
    rw [checkAndIncrement_rejected_store_eq hc hw']
    exact ih s (fun k' hk' => hall k' (List.mem_cons_of_mem k hk'))

theorem tryModels_all_rejected (cw : List (String × Nat)) (now : Nat)
    (keys : List String) (ab : Bool) :
    ∀ (models : List Model) (s : Store),
      (∀ pr ∈ pairsOf models keys, rejectsAt cw now s pr ab) →
      tryModels cw now s models keys ab = .ok (s, none) := by
  intro models
  induction models with
  | nil => intro s _; rfl
  | cons m ms ih =>
    intro s hall
    have hallK : ∀ k ∈ keys, rejectsAt cw now s (k, m) ab := by
      intro k hk
      have hmem : (k, m) ∈ keys.map (fun k0 => (k0, m)) ++ pairsOf ms keys :=
        List.mem_append.2 (Or.inl (List.mem_map.2 ⟨k, hk, rfl⟩))
      exact hall (k, m) hmem
    simp only [tryModels]
    rw [tryKeys_all_rejected cw now m ab keys s hallK]
    dsimp only
    refine ih s (fun pr hpr => hall pr ?_)
    exact List.mem_append.2 (Or.inr hpr)

/-- C4: for a configured API, `getModel` evaluates the strategy-ordered
(model-outer, key-inner) candidate pairs `pairsOf oM oK` in that fixed
order and returns the first accepted pair with its usage (`limits`) and
`borrowed` flag; when every pair is rejected it returns the
distinguished non-error value `none` (the JS `null`) inside a normal
`.ok`, not an exception. -/
theorem getModel_returns_first_accepted
    (L : Limiter) (now : Nat) (rndM rndK : List Nat) (s : Store) (apiName : String)
    (ab : Bool) (api : Api) (L' : Limiter) (s' : Store) (res : Option Picked)
    (hA : findApi L.apis apiName = .ok api)
    (h : getModel L now rndM rndK s apiName ab = .ok (L', s', res)) :
    (res = none → s' = s
      ∧ ∀ pr ∈ pairsOf
          (getOrderedItems L.modelStrategy rndM L.lastModelIndices apiName "model" api.models).1
          (getOrderedItems L.keyStrategy rndK L.lastKeyIndices apiName "key" api.keys).1,
        rejectsAt L.customWindows now s pr ab)
    ∧ (∀ pk, res = some pk →
        ∃ pre pr post,
          pairsOf
            (getOrderedItems L.modelStrategy rndM L.lastModelIndices apiName "model" api.models).1
            (getOrderedItems L.keyStrategy rndK L.lastKeyIndices apiName "key" api.keys).1
            = pre ++ pr :: post
          ∧ (∀ q ∈ pre, rejectsAt L.customWindows now s q ab)
          ∧ ∃ p : Store × CheckResult,
              checkAndIncrement L.customWindows now s pr.1 pr.2 ab = .ok p
              ∧ p.2.isWithinLimits = true ∧ s' = p.1
              ∧ pk = ⟨pr.1, pr.2.name, p.2.usage, p.2.borrowed⟩)
    ∧ ((∀ pr ∈ pairsOf
          (getOrderedItems L.modelStrategy rndM L.lastModelIndices apiName "model" api.models).1
          (getOrderedItems L.keyStrategy rndK L.lastKeyIndices apiName "key" api.keys).1,
        rejectsAt L.customWindows now s pr ab) → res = none) := by
  unfold getModel at h
  rw [hA] at h
  dsimp only at h
  cases htm : tryModels L.customWindows now s
      (getOrderedItems L.modelStrategy rndM L.lastModelIndices apiName "model" api.models).1
      (getOrderedItems L.keyStrategy rndK L.lastKeyIndices apiName "key" api.keys).1 ab with
  | error e => rw [htm] at h; cases h
  | ok q =>
    rw [htm] at h
    dsimp only at h
    obtain ⟨_, h2, h3⟩ : _ ∧ q.1 = s' ∧ q.2 = res := by
      have := h
      simp only [Except.ok.injEq, Prod.mk.injEq] at this
      exact ⟨this.1, this.2.1, this.2.2⟩
    have hsp := tryModels_spec L.customWindows now
      (getOrderedItems L.keyStrategy rndK L.lastKeyIndices apiName "key" api.keys).1 ab
      (getOrderedItems L.modelStrategy rndM L.lastModelIndices apiName "model" api.models).1
      s q.1 q.2 (by rw [htm])
    rw [h2, h3] at hsp
    refine ⟨hsp.1, hsp.2, ?_⟩
    intro hall
    have hrun := tryModels_all_rejected L.customWindows now
      (getOrderedItems L.keyStrategy rndK L.lastKeyIndices apiName "key" api.keys).1 ab
      (getOrderedItems L.modelStrategy rndM L.lastModelIndices apiName "model" api.models).1
      s hall
    rw [htm] at hrun
    have : q.2 = (none : Option Picked) := congrArg Prod.snd (Except.ok.inj hrun)
    rw [← h3, this]

/-- A one-API limiter used by the concrete selection runs. -/
def testLimiter : Limiter :=
  { apis := [⟨"api 1", ["k1"], [testModel1]⟩]
    customWindows := defaultWindows
    keyStrategy := .ascending
    modelStrategy := .ascending
    lastKeyIndices := []
    lastModelIndices := []
    metricsEnabled := true
    defaultBatchSize := 3 }

/-- The accepted candidate of the concrete `getModel` run. -/
def testPick : Picked := ⟨"k1", testModel1.name, testP1.2.usage, testP1.2.borrowed⟩

/-- Witness for C4 at a concrete accepting run. -/
theorem getModel_returns_first_accepted_witness :
    findApi testLimiter.apis "api 1" = .ok ⟨"api 1", ["k1"], [testModel1]⟩
    ∧ ((some testPick = none → testP1.1 = emptyStore
        ∧ ∀ pr ∈ pairsOf
            (getOrderedItems testLimiter.modelStrategy [] testLimiter.lastModelIndices
              "api 1" "model" [testModel1]).1
            (getOrderedItems testLimiter.keyStrategy [] testLimiter.lastKeyIndices
              "api 1" "key" ["k1"]).1,
          rejectsAt testLimiter.customWindows 0 emptyStore pr false)
      ∧ (∀ pk, some testPick = some pk →
          ∃ pre pr post,
            pairsOf
              (getOrderedItems testLimiter.modelStrategy [] testLimiter.lastModelIndices
                "api 1" "model" [testModel1]).1
              (getOrderedItems testLimiter.keyStrategy [] testLimiter.lastKeyIndices
                "api 1" "key" ["k1"]).1
              = pre ++ pr :: post
            ∧ (∀ q ∈ pre, rejectsAt testLimiter.customWindows 0 emptyStore q false)
            ∧ ∃ p : Store × CheckResult,
                checkAndIncrement testLimiter.customWindows 0 emptyStore pr.1 pr.2 false = .ok p
                ∧ p.2.isWithinLimits = true ∧ testP1.1 = p.1
                ∧ pk = ⟨pr.1, pr.2.name, p.2.usage, p.2.borrowed⟩)
      ∧ ((∀ pr ∈ pairsOf
            (getOrderedItems testLimiter.modelStrategy [] testLimiter.lastModelIndices
              "api 1" "model" [testModel1]).1
            (getOrderedItems testLimiter.keyStrategy [] testLimiter.lastKeyIndices
              "api 1" "key" ["k1"]).1,
          rejectsAt testLimiter.customWindows 0 emptyStore pr false) →
        (some testPick : Option Picked) = none)) :=
  ⟨rfl,
    getModel_returns_first_accepted testLimiter 0 [] [] emptyStore "api 1" false
      ⟨"api 1", ["k1"], [testModel1]⟩ testLimiter testP1.1 (some testPick) rfl rfl⟩

/-- The inner key loop of `getBatch`: collects accepted candidates,
breaking out as soon as the batch is full; each `checkAndIncrement` is
called WITHOUT the borrowing flag. -/
def batchKeys (cw : List (String × Nat)) (now : Nat) (s : Store) (m : Model)
    (keys : List String) (size : Nat) (acc : List Picked) :
    Except String (Store × List Picked) :=
  match keys with
  | [] => .ok (s, acc)
  | k :: rest =>
    if size ≤ acc.length then .ok (s, acc)
    else
      match checkAndIncrement cw now s k m false with
      | .error e => .error e
      | .ok p =>
        if p.2.isWithinLimits then
          batchKeys cw now p.1 m rest size
            (acc ++ [⟨k, m.name, p.2.usage, p.2.borrowed⟩])
        else
          batchKeys cw now p.1 m rest size acc

/-- The outer model loop of `getBatch`. -/
def batchModels (cw : List (String × Nat)) (now : Nat) (s : Store)
    (models : List Model) (keys : List String) (size : Nat) (acc : List Picked) :
    Except String (Store × List Picked) :=
  match models with
  | [] => .ok (s, acc)
  | m :: rest =>
    match batchKeys cw now s m keys size acc with
    | .error e => .error e
    | .ok q => batchModels cw now q.1 rest keys size q.2

/-- `getBatch(apiName, size)`: the same model-outer/key-inner iteration
as `getModel` but continuing past the first acceptance, collecting up
to `size` accepted tuples (the JS default for `size` is
`this.defaultBatchSize`); returns the collected list when non-empty,
else the JS `null` (`none`). -/
def getBatch (L : Limiter) (now : Nat) (rndM rndK : List Nat) (s : Store)
    (apiName : String) (size : Nat) :
    Except String (Limiter × Store × Option (List Picked)) :=
  match findApi L.apis apiName with
  | .error e => .error e
  | .ok api =>
    let om := getOrderedItems L.modelStrategy rndM L.lastModelIndices apiName "model" api.models
    let okk := getOrderedItems L.keyStrategy rndK L.lastKeyIndices apiName "key" api.keys
    let L' := { L with lastModelIndices := om.2, lastKeyIndices := okk.2 }
    match batchModels L.customWindows now s om.1 okk.1 size [] with
    | .error e => .error e
    | .ok q => .ok (L', q.1, if 0 < q.2.length then some q.2 else none)

theorem checkAndIncrement_no_borrow (cw : List (String × Nat)) (now : Nat)
    (s : Store) (apiKey : String) (model : Model) (p : Store × CheckResult)
    (h : checkAndIncrement cw now s apiKey model false = .ok p) :
    p.2.borrowed = false := by
  unfold checkAndIncrement at h
  cases hf : isFrozen s apiKey model.name with
  | true => rw [hf] at h; simp only [if_true] at h; cases h; rfl
  | false =>
    rw [hf] at h
    simp only [Bool.false_eq_true, if_false] at h
    cases hbe : buildEntries cw now apiKey model.name model.limits with
    | error e => rw [hbe] at h; cases h
    | ok es =>
      rw [hbe] at h
      dsimp only at h
      cases h
      simp [evalLoop_borrowed_eq]

theorem batchKeys_shape (cw : List (String × Nat)) (now : Nat) (m : Model)
    (size : Nat) :
    ∀ (keys : List String) (s : Store) (acc : List Picked) (s1 : Store)
      (acc1 : List Picked),
      batchKeys cw now s m keys size acc = .ok (s1, acc1) →
      (∃ extra, acc1 = acc ++ extra)
      ∧ (acc.length ≤ size → acc1.length ≤ size)
      ∧ (∀ t ∈ acc1, t ∈ acc ∨ t.borrowed = false) := by
  intro keys
  induction keys with
  | nil =>
    intro s acc s1 acc1 h
    obtain ⟨h1, h2⟩ : s = s1 ∧ acc = acc1 := by simpa [batchKeys] using h
    subst h1; subst h2
    exact ⟨⟨[], by simp⟩, fun hle => hle, fun t ht => Or.inl ht⟩
  | cons k rest ih =>
    intro s acc s1 acc1 h
    simp only [batchKeys] at h
    by_cases hfull : size ≤ acc.length
    · rw [if_pos hfull] at h
      obtain ⟨h1, h2⟩ : s = s1 ∧ acc = acc1 := by simpa using h
      subst h1; subst h2
      exact ⟨⟨[], by simp⟩, fun hle => hle, fun t ht => Or.inl ht⟩
    · rw [if_neg hfull] at h
      cases hc : checkAndIncrement cw now s k m false with
      | error e => rw [hc] at h; cases h
      | ok p =>
        rw [hc] at h
        dsimp only at h
        by_cases hw : p.2.isWithinLimits = true
        · rw [if_pos hw] at h
          obtain ⟨⟨extra, hex⟩, hlen, hmem⟩ := ih p.1 _ s1 acc1 h
          refine ⟨⟨⟨k, m.name, p.2.usage, p.2.borrowed⟩ :: extra, by simp [hex]⟩,
            fun _ => hlen (by simp; omega), fun t ht => ?_⟩
          rcases hmem t ht with hin | hb
          · rcases List.mem_append.1 hin with hin' | hin'
            · exact Or.inl hin'
            · have : t = ⟨k, m.name, p.2.usage, p.2.borrowed⟩ := by simpa using hin'
              subst this
              exact Or.inr (checkAndIncrement_no_borrow cw now s k m p hc)
          · exact Or.inr hb
        · rw [if_neg hw] at h
          exact ih p.1 acc s1 acc1 h

theorem batchModels_shape (cw : List (String × Nat)) (now : Nat)
    (keys : List String) (size : Nat) :
    ∀ (models : List Model) (s : Store) (acc : List Picked) (s1 : Store)
      (acc1 : List Picked),
      batchModels cw now s models keys size acc = .ok (s1, acc1) →
      (∃ extra, acc1 = acc ++ extra)
      ∧ (acc.length ≤ size → acc1.length ≤ size)
      ∧ (∀ t ∈ acc1, t ∈ acc ∨ t.borrowed = false) := by
  intro models
  induction models with
  | nil =>
    intro s acc s1 acc1 h
    obtain ⟨h1, h2⟩ : s = s1 ∧ acc = acc1 := by simpa [batchModels] using h
    subst h1; subst h2
    exact ⟨⟨[], by simp⟩, fun hle => hle, fun t ht => Or.inl ht⟩
  | cons m ms ih =>
    intro s acc s1 acc1 h
    simp only [batchModels] at h
    cases hq : batchKeys cw now s m keys size acc with
    | error e => rw [hq] at h; cases h
    | ok q =>
      rw [hq] at h
      dsimp only at h
      obtain ⟨⟨ex1, hex1⟩, hlen1, hmem1⟩ :=
        batchKeys_shape cw now m size keys s acc q.1 q.2 (by rw [hq])
      obtain ⟨⟨ex2, hex2⟩, hlen2, hmem2⟩ := ih q.1 q.2 s1 acc1 h
      refine ⟨⟨ex1 ++ ex2, by rw [hex2, hex1, List.append_assoc]⟩,
        fun hle => hlen2 (hlen1 hle), fun t ht => ?_⟩
      rcases hmem2 t ht with hin | hb
      · rcases hmem1 t hin with hin' | hb'
        · exact Or.inl hin'
        · exact Or.inr hb'
      · exact Or.inr hb

theorem batchKeys_nil_forward (cw : List (String × Nat)) (now : Nat) (m : Model)
    (size : Nat) (hsz : 0 < size) :
    ∀ (keys : List String) (s s1 : Store) (acc1 : List Picked),
      batchKeys cw now s m keys size [] = .ok (s1, acc1) → acc1 = [] →
      s1 = s ∧ ∀ k ∈ keys, rejectsAt cw now s (k, m) false := by
  intro keys
  induction keys with
  | nil =>
    intro s s1 acc1 h _
    obtain ⟨h1, _⟩ : s = s1 ∧ ([] : List Picked) = acc1 := by simpa [batchKeys] using h
    exact ⟨h1.symm, by simp⟩
  | cons k rest ih =>
    intro s s1 acc1 h hnil
    simp only [batchKeys] at h
    rw [if_neg (by simp; omega)] at h
    cases hc : checkAndIncrement cw now s k m false with
    | error e => rw [hc] at h; cases h
    | ok p =>
      rw [hc] at h
      dsimp only at h
      by_cases hw : p.2.isWithinLimits = true
      · rw [if_pos hw] at h
        obtain ⟨⟨extra, hex⟩, _, _⟩ :=
          batchKeys_shape cw now m size rest p.1 _ s1 acc1 h
        rw [hnil] at hex
        simp at hex
      · have hw' : p.2.isWithinLimits = false := by simpa using hw
        rw [if_neg hw] at h
        have hps : p.1 = s := checkAndIncrement_rejected_store_eq hc hw'
        rw [hps] at h
        obtain ⟨h1, hall⟩ := ih s s1 acc1 h hnil
        refine ⟨h1, fun k' hk' => ?_⟩
        rcases List.mem_cons.1 hk' with rfl | hmem
        · exact ⟨p, hc, hw'⟩
        · exact hall k' hmem

theorem batchKeys_all_rejected (cw : List (String × Nat)) (now : Nat) (m : Model)
    (size : Nat) :
    ∀ (keys : List String) (s : Store),
      (∀ k ∈ keys, rejectsAt cw now s (k, m) false) →
      batchKeys cw now s m keys size [] = .ok (s, []) := by
  intro keys
  induction keys with
  | nil => intro s _; rfl
  | cons k rest ih =>
    intro s hall
    obtain ⟨p, hc, hw'⟩ := hall k (List.mem_cons_self k rest)
    simp only [batchKeys]
    by_cases hfull : size ≤ (([] : List Picked)).length
    · rw [if_pos hfull]
    · rw [if_neg hfull, hc]
      dsimp only
      rw [if_neg (by simp [hw'])]
      rw [checkAndIncrement_rejected_store_eq hc hw']
      exact ih s (fun k' hk' => hall k' (List.mem_cons_of_mem k hk'))

theorem batchModels_nil_forward (cw : List (String × Nat)) (now : Nat)
    (keys : List String) (size : Nat) (hsz : 0 < size) :
    ∀ (models : List Model) (s s1 : Store) (acc1 : List Picked),
      batchModels cw now s models keys size [] = .ok (s1, acc1) → acc1 = [] →
      s1 = s ∧ ∀ pr ∈ pairsOf models keys, rejectsAt cw now s pr false := by
  intro models
  induction models with
  | nil =>
    intro s s1 acc1 h _
    obtain ⟨h1, _⟩ : s = s1 ∧ ([] : List Picked) = acc1 := by
      simpa [batchModels] using h
    exact ⟨h1.symm, by simp [pairsOf]⟩
  | cons m ms ih =>
    intro s s1 acc1 h hnil
    simp only [batchModels] at h
    cases hq : batchKeys cw now s m keys size [] with
    | error e => rw [hq] at h; cases h
    | ok q =>
      rw [hq] at h
      dsimp only at h
      obtain ⟨⟨ex2, hex2⟩, _, _⟩ := batchModels_shape cw now keys size ms q.1 q.2 s1 acc1 h
      have hq2 : q.2 = [] := by
        rw [hnil] at hex2
        exact (List.append_eq_nil.mp hex2.symm).1
      obtain ⟨hqs, hallK⟩ :=
        batchKeys_nil_forward cw now m size hsz keys s q.1 q.2 (by rw [hq]) hq2
      rw [hqs, hq2] at h
      obtain ⟨hs1, hallM⟩ := ih s s1 acc1 h hnil
      refine ⟨hs1, fun pr hpr => ?_⟩
      have hpr' : (∃ a ∈ keys, (a, m) = pr) ∨ pr ∈ pairsOf ms keys := by
        simpa [pairsOf] using hpr
      rcases hpr' with ⟨k', hk', rfl⟩ | hm
      · exact hallK k' hk'
      · exact hallM pr hm

theorem batchModels_all_rejected (cw : List (String × Nat)) (now : Nat)
    (keys : List String) (size : Nat) :
    ∀ (models : List Model) (s : Store),
      (∀ pr ∈ pairsOf models keys, rejectsAt cw now s pr false) →
      batchModels cw now s models keys size [] = .ok (s, []) := by
  intro models
  induction models with
  | nil => intro s _; rfl
  | cons m ms ih =>
    intro s hall
    have hallK : ∀ k ∈ keys, rejectsAt cw now s (k, m) false := by
      intro k hk
      have hmem : (k, m) ∈ keys.map (fun k0 => (k0, m)) ++ pairsOf ms keys :=
        List.mem_append.2 (Or.inl (List.mem_map.2 ⟨k, hk, rfl⟩))
      exact hall (k, m) hmem
    simp only [batchModels]
    rw [batchKeys_all_rejected cw now m size keys s hallK]
    dsimp only
    refine ih s (fun pr hpr => hall pr ?_)
    exact List.mem_append.2 (Or.inr hpr)

/-- An accepted (unfrozen, in-limits) evaluation keeps its increments:
every counter ends higher by the number of the model's window entries
keyed to it — one real increment per window, no simulation and no
rollback. -/
theorem checkAndIncrement_accepted_increments
    (cw : List (String × Nat)) (now : Nat) (s0 : Store) (apiKey : String)
    (model : Model) (ab : Bool) (p : Store × CheckResult) (es : List Entry)
    (hfz : isFrozen s0 apiKey model.name = false)
    (hbe : buildEntries cw now apiKey model.name model.limits = .ok es)
    (h : checkAndIncrement cw now s0 apiKey model ab = .ok p)
    (hw : p.2.isWithinLimits = true) :
    ∀ q, p.1.counters q
      = s0.counters q + ((es.filter (fun e => e.key == q)).length : Int) := by
  unfold checkAndIncrement at h
  rw [hfz] at h
  simp only [Bool.false_eq_true, if_false] at h
  rw [hbe] at h
  dsimp only at h
  cases h
  simp only at hw
  intro q
  simp only [hw, if_true]
  exact runIncrs_counters es s0 q

/-- C9: for a configured API, `getBatch` runs the same model-outer /
key-inner iteration as `getModel` but keeps collecting past the first
acceptance: the result list never exceeds `size`, every collected tuple
comes from a non-borrowing evaluation (`borrowed = false`; the flag is
never offered in batch mode), and — for a positive batch size — the
distinguished non-error `none` (the JS `null`) is returned exactly when
no candidate pair is accepted. -/
theorem getBatch_spec
    (L : Limiter) (now : Nat) (rndM rndK : List Nat) (s : Store) (apiName : String)
    (size : Nat) (api : Api) (L' : Limiter) (s' : Store) (res : Option (List Picked))
    (hA : findApi L.apis apiName = .ok api)
    (h : getBatch L now rndM rndK s apiName size = .ok (L', s', res)) :
    (∀ l, res = some l → l.length ≤ size ∧ l ≠ [] ∧ ∀ t ∈ l, t.borrowed = false)
    ∧ (0 < size →
        (res = none ↔ ∀ pr ∈ pairsOf
            (getOrderedItems L.modelStrategy rndM L.lastModelIndices apiName "model" api.models).1
            (getOrderedItems L.keyStrategy rndK L.lastKeyIndices apiName "key" api.keys).1,
          rejectsAt L.customWindows now s pr false))
    ∧ (∀ (s0 : Store) (kk : String) (m : Model) (p : Store × CheckResult)
          (es : List Entry),
        isFrozen s0 kk m.name = false →
        buildEntries L.customWindows now kk m.name m.limits = .ok es →
        checkAndIncrement L.customWindows now s0 kk m false = .ok p →
        p.2.isWithinLimits = true →
        ∀ q, p.1.counters q
          = s0.counters q + ((es.filter (fun e => e.key == q)).length : Int)) := by
  unfold getBatch at h
  rw [hA] at h
  dsimp only at h
  cases hbm : batchModels L.customWindows now s
      (getOrderedItems L.modelStrategy rndM L.lastModelIndices apiName "model" api.models).1
      (getOrderedItems L.keyStrategy rndK L.lastKeyIndices apiName "key" api.keys).1
      size [] with
  | error e => rw [hbm] at h; cases h
  | ok q =>
    rw [hbm] at h
    dsimp only at h
    obtain ⟨h2, h3⟩ : q.1 = s' ∧ (if 0 < q.2.length then some q.2 else none) = res := by
      simp only [Except.ok.injEq, Prod.mk.injEq] at h
      exact ⟨h.2.1, h.2.2⟩
    obtain ⟨⟨extra, hex⟩, hlen, hmem⟩ := batchModels_shape L.customWindows now
      (getOrderedItems L.keyStrategy rndK L.lastKeyIndices apiName "key" api.keys).1 size
      (getOrderedItems L.modelStrategy rndM L.lastModelIndices apiName "model" api.models).1
      s [] q.1 q.2 (by rw [hbm])
    refine ⟨?_, ?_, fun s0 kk m p es h1 h2 h3' h4 =>
      checkAndIncrement_accepted_increments L.customWindows now s0 kk m false p es
        h1 h2 h3' h4⟩
    · intro l hl
      rw [← h3] at hl
      by_cases hpos : 0 < q.2.length
      · rw [if_pos hpos] at hl
        obtain rfl : q.2 = l := Option.some.inj hl
        refine ⟨hlen (by simp), ?_, ?_⟩
        · intro hnil; rw [hnil] at hpos; simp at hpos
        · intro t ht
          rcases hmem t ht with hin | hb
          · exact absurd hin (List.not_mem_nil t)
          · exact hb
      · rw [if_neg hpos] at hl; cases hl
    · intro hsz
      constructor
      · intro hn
        rw [← h3] at hn
        by_cases hpos : 0 < q.2.length
        · rw [if_pos hpos] at hn; cases hn
        · have hq2 : q.2 = [] := List.eq_nil_of_length_eq_zero (by omega)
          exact (batchModels_nil_forward L.customWindows now
            (getOrderedItems L.keyStrategy rndK L.lastKeyIndices apiName "key" api.keys).1
            size hsz
            (getOrderedItems L.modelStrategy rndM L.lastModelIndices apiName "model" api.models).1
            s q.1 q.2 (by rw [hbm]) hq2).2
      · intro hall
        have hrun := batchModels_all_rejected L.customWindows now
          (getOrderedItems L.keyStrategy rndK L.lastKeyIndices apiName "key" api.keys).1
          size
          (getOrderedItems L.modelStrategy rndM L.lastModelIndices apiName "model" api.models).1
          s hall
        rw [hbm] at hrun
        have hq2 : q.2 = [] := congrArg Prod.snd (Except.ok.inj hrun)
        rw [← h3, hq2]
        simp

/-- Witness for C9 at a concrete accepting batch run of size 3. -/
theorem getBatch_spec_witness :
    findApi testLimiter.apis "api 1" = .ok ⟨"api 1", ["k1"], [testModel1]⟩
    ∧ ((∀ l, (some [testPick] : Option (List Picked)) = some l →
          l.length ≤ 3 ∧ l ≠ [] ∧ ∀ t ∈ l, t.borrowed = false)
      ∧ (0 < 3 →
          ((some [testPick] : Option (List Picked)) = none ↔ ∀ pr ∈ pairsOf
              (getOrderedItems testLimiter.modelStrategy [] testLimiter.lastModelIndices
                "api 1" "model" [testModel1]).1
              (getOrderedItems testLimiter.keyStrategy [] testLimiter.lastKeyIndices
                "api 1" "key" ["k1"]).1,
            rejectsAt testLimiter.customWindows 0 emptyStore pr false))
      ∧ (∀ (s0 : Store) (kk : String) (m : Model) (p : Store × CheckResult)
            (es : List Entry),
          isFrozen s0 kk m.name = false →
          buildEntries testLimiter.customWindows 0 kk m.name m.limits = .ok es →
          checkAndIncrement testLimiter.customWindows 0 s0 kk m false = .ok p →
          p.2.isWithinLimits = true →
          ∀ q, p.1.counters q
            = s0.counters q + ((es.filter (fun e => e.key == q)).length : Int))) :=
  ⟨rfl,
    getBatch_spec testLimiter 0 [] [] emptyStore "api 1" 3
      ⟨"api 1", ["k1"], [testModel1]⟩ testLimiter testP1.1 (some [testPick]) rfl rfl⟩

/-- A JS value passed as a limit: a number, or any non-numeric value
(the `typeof limit !== 'number'` case). -/
inductive JVal where
  | num (q : Int)
  | nonnum
deriving DecidableEq

/-- The numeric content of a validated limit value. -/
def JVal.toInt : JVal → Int
  | .num q => q
  | .nonnum => 0

/-- The validation loop of `updateLimits`: per entry, the window must be
registered (and, like every `this.customWindows[w]` falsy test, of
non-zero size) and the value a non-negative number; the first offender
throws. -/
def validateLimits (cw : List (String × Nat)) : List (String × JVal) → Except String Unit
  | [] => .ok ()
  | (w, v) :: rest =>
    match lookupAssoc cw w with
    | none => .error ("Invalid window: " ++ w)
    | some d =>
      if d = 0 then .error ("Invalid window: " ++ w)
      else
        match v with
        | .nonnum => .error ("Invalid limit for " ++ w)
        | .num q =>
          if q < 0 then .error ("Invalid limit for " ++ w)
          else validateLimits cw rest

/-- The JS object spread `{...old, ...upd}`: keys of `old` in order with
values overridden by `upd` where present, then keys only in `upd`
appended in their order. -/
def jsMerge (old upd : List (String × Int)) : List (String × Int) :=
  old.map (fun p =>
    match lookupAssoc upd p.1 with
    | some v => (p.1, v)
    | none => p)
  ++ upd.filter (fun q => (lookupAssoc old q.1).isNone)

/-- `updateLimits(apiName, modelName, newLimits)`: find the API and the
model, validate every entry, then merge into the model's limits map.
The JS code mutates the found model object in place; here the
containing API list is rebuilt with the updated model (names are unique
per the config schema). -/
def updateLimits (L : Limiter) (apiName modelName : String)
    (newLimits : List (String × JVal)) :
    Except String (Limiter × List (String × Int)) :=
  match findApi L.apis apiName with
  | .error e => .error e
  | .ok api =>
    match api.models.find? (fun m => m.name == modelName) with
    | none => .error ("Model " ++ modelName ++ " not found in API " ++ apiName)
    | some model =>
      match validateLimits L.customWindows newLimits with
      | .error e => .error e
      | .ok _ =>
        let merged := jsMerge model.limits (newLimits.map (fun e => (e.1, e.2.toInt)))
        let newModel : Model := { model with limits := merged }
        let newModels := api.models.map (fun m => if m.name == modelName then newModel else m)
        let newApi : Api := { api with models := newModels }
        let newApis := L.apis.map (fun a => if a.name == apiName then newApi else a)
        .ok ({ L with apis := newApis }, merged)

/-- A valid entry of `newLimits`: registered non-zero window, value a
non-negative number. -/
def goodEntry (cw : List (String × Nat)) (e : String × JVal) : Prop :=
  (∃ d, lookupAssoc cw e.1 = some d ∧ d ≠ 0) ∧ (∃ q, e.2 = JVal.num q ∧ 0 ≤ q)

theorem lookupAssoc_append_of_some {α : Type} (l1 l2 : List (String × α))
    (k : String) (v : α) (h : lookupAssoc l1 k = some v) :
    lookupAssoc (l1 ++ l2) k = some v := by
  induction l1 with
  | nil => simp [lookupAssoc] at h
  | cons p rest ih =>
    cases hp : (p.1 == k) with
    | true =>
      rw [lookupAssoc_cons_pos p rest k hp] at h
      rw [List.cons_append, lookupAssoc_cons_pos p _ k hp]
      exact h
    | false =>
      rw [lookupAssoc_cons_neg p rest k hp] at h
      rw [List.cons_append, lookupAssoc_cons_neg p _ k hp]
      exact ih h

theorem lookupAssoc_append_of_none {α : Type} (l1 l2 : List (String × α))
    (k : String) (h : lookupAssoc l1 k = none) :
    lookupAssoc (l1 ++ l2) k = lookupAssoc l2 k := by
  induction l1 with
  | nil => simp
  | cons p rest ih =>
    cases hp : (p.1 == k) with
    | true => rw [lookupAssoc_cons_pos p rest k hp] at h; cases h
    | false =>
      rw [lookupAssoc_cons_neg p rest k hp] at h
      rw [List.cons_append, lookupAssoc_cons_neg p _ k hp]
      exact ih h

theorem lookupAssoc_merge_map_some (upd : List (String × Int)) (k : String)
    (v : Int) (hupd : lookupAssoc upd k = some v) :
    ∀ (old : List (String × Int)) (v0 : Int), lookupAssoc old k = some v0 →
      lookupAssoc (old.map (fun p =>
        match lookupAssoc upd p.1 with
        | some w => (p.1, w)
        | none => p)) k = some v := by
  intro old
  induction old with
  | nil => intro v0 h; simp [lookupAssoc] at h
  | cons p rest ih =>
    intro v0 h
    rw [List.map_cons]
    cases hp : (p.1 == k) with
    | true =>
      have hpk : p.1 = k := by simpa using hp
      rw [hpk, hupd]
      exact lookupAssoc_cons_pos (k, v) _ k (by simp)
    | false =>
      rw [lookupAssoc_cons_neg p rest k hp] at h
      have hkey : ((match lookupAssoc upd p.1 with
          | some w => (p.1, w)
          | none => p) : String × Int).1 = p.1 := by
        cases lookupAssoc upd p.1 <;> rfl
      rw [lookupAssoc_cons_neg _ _ k (by rw [hkey]; exact hp)]
      exact ih v0 h

theorem lookupAssoc_merge_map_old (upd : List (String × Int)) (k : String)
    (hupd : lookupAssoc upd k = none) :
    ∀ (old : List (String × Int)),
      lookupAssoc (old.map (fun p =>
        match lookupAssoc upd p.1 with
        | some w => (p.1, w)
        | none => p)) k = lookupAssoc old k := by
  intro old
  induction old with
  | nil => simp
  | cons p rest ih =>
    rw [List.map_cons]
    cases hp : (p.1 == k) with
    | true =>
      have hpk : p.1 = k := by simpa using hp
      rw [hpk, hupd]
      rw [lookupAssoc_cons_pos p _ k hp, lookupAssoc_cons_pos p rest k hp]
    | false =>
      have hkey : ((match lookupAssoc upd p.1 with
          | some w => (p.1, w)
          | none => p) : String × Int).1 = p.1 := by
        cases lookupAssoc upd p.1 <;> rfl
      rw [lookupAssoc_cons_neg _ _ k (by rw [hkey]; exact hp),
        lookupAssoc_cons_neg p rest k hp]
      exact ih

theorem lookupAssoc_merge_map_none (upd : List (String × Int)) (k : String) :
    ∀ (old : List (String × Int)), lookupAssoc old k = none →
      lookupAssoc (old.map (fun p =>
        match lookupAssoc upd p.1 with
        | some w => (p.1, w)
        | none => p)) k = none := by
  intro old
  induction old with
  | nil => intro h; simpa using h
  | cons p rest ih =>
    intro h
    cases hp : (p.1 == k) with
    | true => rw [lookupAssoc_cons_pos p rest k hp] at h; cases h
    | false =>
      rw [lookupAssoc_cons_neg p rest k hp] at h
      rw [List.map_cons]
      have hkey : ((match lookupAssoc upd p.1 with
          | some w => (p.1, w)
          | none => p) : String × Int).1 = p.1 := by
        cases lookupAssoc upd p.1 <;> rfl
      rw [lookupAssoc_cons_neg _ _ k (by rw [hkey]; exact hp)]
      exact ih h

theorem lookupAssoc_filter_of_keep {α : Type} (pred : String × α → Bool) (k : String)
    (hk : ∀ q : String × α, q.1 = k → pred q = true) :
    ∀ l : List (String × α), lookupAssoc (l.filter pred) k = lookupAssoc l k := by
  intro l
  induction l with
  | nil => simp
  | cons q rest ih =>
    rw [List.filter_cons]
    cases hq : (q.1 == k) with
    | true =>
      have hqk : q.1 = k := by simpa using hq
      rw [if_pos (by simp [hk q hqk])]
      rw [lookupAssoc_cons_pos q _ k hq, lookupAssoc_cons_pos q rest k hq]
    | false =>
      by_cases hpq : pred q = true
      · rw [if_pos (by simp [hpq])]
        rw [lookupAssoc_cons_neg q _ k hq, lookupAssoc_cons_neg q rest k hq]
        exact ih
      · rw [if_neg (by simpa using hpq)]
        rw [lookupAssoc_cons_neg q rest k hq]
        exact ih

theorem lookupAssoc_filter_none {α : Type} (pred : String × α → Bool) (k : String) :
    ∀ l : List (String × α), lookupAssoc l k = none →
      lookupAssoc (l.filter pred) k = none := by
  intro l
  induction l with
  | nil => intro h; simpa using h
  | cons q rest ih =>
    intro h
    cases hq : (q.1 == k) with
    | true => rw [lookupAssoc_cons_pos q rest k hq] at h; cases h
    | false =>
      rw [lookupAssoc_cons_neg q rest k hq] at h
      rw [List.filter_cons]
      by_cases hpq : pred q = true
      · rw [if_pos (by simp [hpq]), lookupAssoc_cons_neg q _ k hq]
        exact ih h
      · rw [if_neg (by simpa using hpq)]
        exact ih h

/-- Named windows take the updated value in the merge. -/
theorem jsMerge_lookup_new (old upd : List (String × Int)) (k : String) (v : Int)
    (h : lookupAssoc upd k = some v) :
    lookupAssoc (jsMerge old upd) k = some v := by
  unfold jsMerge
  cases hold : lookupAssoc old k with
  | some v0 =>
    exact lookupAssoc_append_of_some _ _ k v
      (lookupAssoc_merge_map_some upd k v h old v0 hold)
  | none =>
    rw [lookupAssoc_append_of_none _ _ k (lookupAssoc_merge_map_none upd k old hold)]
    rw [lookupAssoc_filter_of_keep _ k (fun q hq => by rw [hq, hold]; rfl) upd]
    exact h

/-- Windows not named in the update keep their previous values. -/
theorem jsMerge_lookup_old (old upd : List (String × Int)) (k : String)
    (h : lookupAssoc upd k = none) :
    lookupAssoc (jsMerge old upd) k = lookupAssoc old k := by
  unfold jsMerge
  cases hold : lookupAssoc old k with
  | some v0 =>
    rw [lookupAssoc_append_of_some _ _ k v0
      (by rw [lookupAssoc_merge_map_old upd k h old]; exact hold)]
  | none =>
    rw [lookupAssoc_append_of_none _ _ k (lookupAssoc_merge_map_none upd k old hold)]
    rw [lookupAssoc_filter_none _ k upd h]

theorem validateLimits_ok_iff (cw : List (String × Nat)) :
    ∀ l, validateLimits cw l = .ok () ↔ ∀ e ∈ l, goodEntry cw e := by
  intro l
  induction l with
  | nil => simp [validateLimits]
  | cons e rest ih =>
    obtain ⟨w, v⟩ := e
    simp only [validateLimits]
    cases hw : lookupAssoc cw w with
    | none =>
      constructor
      · intro h; exact Except.noConfusion h
      · intro hall
        obtain ⟨⟨d, hd, _⟩, _⟩ := hall (w, v) (List.mem_cons_self _ _)
        rw [hw] at hd; cases hd
    | some d =>
      dsimp only
      by_cases hd0 : d = 0
      · rw [if_pos hd0]
        constructor
        · intro h; exact Except.noConfusion h
        · intro hall
          obtain ⟨⟨d', hd', hne⟩, _⟩ := hall (w, v) (List.mem_cons_self _ _)
          rw [hw] at hd'
          obtain rfl : d = d' := Option.some.inj hd'
          exact (hne hd0).elim
      · rw [if_neg hd0]
        cases v with
        | nonnum =>
          constructor
          · intro h; exact Except.noConfusion h
          · intro hall
            obtain ⟨_, q, hq, _⟩ := hall (w, .nonnum) (List.mem_cons_self _ _)
            cases hq
        | num q =>
          dsimp only
          by_cases hq0 : q < 0
          · rw [if_pos hq0]
            constructor
            · intro h; exact Except.noConfusion h
            · intro hall
              obtain ⟨_, q', hq', hge⟩ := hall (w, .num q) (List.mem_cons_self _ _)
              obtain rfl : q = q' := by cases hq'; rfl
              omega
          · rw [if_neg hq0, ih]
            constructor
            · intro hall e he
              rcases List.mem_cons.1 he with rfl | hmem
              · exact ⟨⟨d, hw, hd0⟩, q, rfl, by omega⟩
              · exact hall e hmem
            · intro hall e he
              exact hall e (List.mem_cons_of_mem _ he)

theorem validateLimits_error_shape (cw : List (String × Nat)) :
    ∀ l msg, validateLimits cw l = .error msg →
      (∃ e ∈ l, msg = "Invalid window: " ++ e.1
          ∧ (lookupAssoc cw e.1 = none ∨ lookupAssoc cw e.1 = some 0))
      ∨ (∃ e ∈ l, msg = "Invalid limit for " ++ e.1
          ∧ (e.2 = JVal.nonnum ∨ ∃ q, e.2 = JVal.num q ∧ q < 0)) := by
  intro l
  induction l with
  | nil => intro msg h; exact Except.noConfusion h
  | cons e rest ih =>
    obtain ⟨w, v⟩ := e
    intro msg h
    simp only [validateLimits] at h
    cases hw : lookupAssoc cw w with
    | none =>
      rw [hw] at h
      dsimp only at h
      exact Or.inl ⟨(w, v), List.mem_cons_self _ _, (Except.error.inj h).symm, Or.inl hw⟩
    | some d =>
      rw [hw] at h
      dsimp only at h
      by_cases hd0 : d = 0
      · rw [if_pos hd0] at h
        refine Or.inl ⟨(w, v), List.mem_cons_self _ _, (Except.error.inj h).symm, Or.inr ?_⟩
        rw [hw, hd0]
      · rw [if_neg hd0] at h
        cases v with
        | nonnum =>
          exact Or.inr ⟨(w, .nonnum), List.mem_cons_self _ _,
            (Except.error.inj h).symm, Or.inl rfl⟩
        | num q =>
          dsimp only at h
          by_cases hq0 : q < 0
          · rw [if_pos hq0] at h
            exact Or.inr ⟨(w, .num q), List.mem_cons_self _ _,
              (Except.error.inj h).symm, Or.inr ⟨q, rfl, hq0⟩⟩
          · rw [if_neg hq0] at h
            rcases ih msg h with ⟨e, he, hrest⟩ | ⟨e, he, hrest⟩
            · exact Or.inl ⟨e, List.mem_cons_of_mem _ he, hrest⟩
            · exact Or.inr ⟨e, List.mem_cons_of_mem _ he, hrest⟩

theorem find?_map_update {α : Type} (p : α → Bool) (f : α → α)
    (hf : ∀ a, p (f a) = p a) :
    ∀ l : List α, (l.map f).find? p = (l.find? p).map f := by
  intro l
  induction l with
  | nil => rfl
  | cons a rest ih =>
    rw [List.map_cons]
    cases hp : p a with
    | true =>
      rw [@List.find?_cons_of_pos _ p (f a) _ (by rw [hf]; exact hp),
        @List.find?_cons_of_pos _ p a rest hp]
      rfl
    | false =>
      rw [@List.find?_cons_of_neg _ p (f a) _ (by simp [hf, hp]),
        @List.find?_cons_of_neg _ p a rest (by simp [hp])]
      exact ih

/-- The updated model produced by a successful `updateLimits`. -/
def updModel (model : Model) (newLimits : List (String × JVal)) : Model :=
  { name := model.name
    limits := jsMerge model.limits (newLimits.map (fun e => (e.1, e.2.toInt))) }

/-- The updated API produced by a successful `updateLimits`. -/
def updApi (api : Api) (modelName : String) (model : Model)
    (newLimits : List (String × JVal)) : Api :=
  { name := api.name
    keys := api.keys
    models := api.models.map
      (fun m => if m.name == modelName then updModel model newLimits else m) }

/-- C8: `updateLimits` validates every entry before touching anything:
an unregistered window yields the `Invalid window` configuration error
and a value that is not a non-negative number the `Invalid limit`
validation error (first conjunct ties each error message to an
offending entry; on error no updated limiter is produced, so the
model's limits are unchanged).  When all entries are valid, the new
entries are merged into the model's limits map — named windows take the
new values, unnamed windows keep their previous values — and the merged
map is immediately the one a subsequent lookup of the model sees. -/
theorem updateLimits_spec
    (L : Limiter) (apiName modelName : String) (newLimits : List (String × JVal))
    (api : Api) (model : Model)
    (hA : findApi L.apis apiName = .ok api)
    (hm : api.models.find? (fun m => m.name == modelName) = some model) :
    ((¬ ∀ e ∈ newLimits, goodEntry L.customWindows e) →
        ∃ msg, updateLimits L apiName modelName newLimits = .error msg
          ∧ ((∃ e ∈ newLimits, msg = "Invalid window: " ++ e.1
                ∧ (lookupAssoc L.customWindows e.1 = none
                  ∨ lookupAssoc L.customWindows e.1 = some 0))
            ∨ (∃ e ∈ newLimits, msg = "Invalid limit for " ++ e.1
                ∧ (e.2 = JVal.nonnum ∨ ∃ q, e.2 = JVal.num q ∧ q < 0))))
    ∧ ((∀ e ∈ newLimits, goodEntry L.customWindows e) →
        ∃ L', updateLimits L apiName modelName newLimits
            = .ok (L', jsMerge model.limits (newLimits.map (fun e => (e.1, e.2.toInt))))
          ∧ (∀ w v, lookupAssoc (newLimits.map (fun e => (e.1, e.2.toInt))) w = some v →
              lookupAssoc (jsMerge model.limits
                (newLimits.map (fun e => (e.1, e.2.toInt)))) w = some v)
          ∧ (∀ w, lookupAssoc (newLimits.map (fun e => (e.1, e.2.toInt))) w = none →
              lookupAssoc (jsMerge model.limits
                (newLimits.map (fun e => (e.1, e.2.toInt)))) w
                = lookupAssoc model.limits w)
          ∧ ∃ api', findApi L'.apis apiName = .ok api'
              ∧ ∃ model', api'.models.find? (fun m => m.name == modelName) = some model'
                ∧ model'.limits
                    = jsMerge model.limits (newLimits.map (fun e => (e.1, e.2.toInt)))) := by
  have hpA : (api.name == apiName) = true := by
    unfold findApi at hA
    cases hfa : L.apis.find? (fun a => a.name == apiName) with
    | none => rw [hfa] at hA; exact Except.noConfusion hA
    | some a0 =>
      rw [hfa] at hA
      obtain rfl : a0 = api := Except.ok.inj hA
      exact @List.find?_some _ (fun a : Api => a.name == apiName) _ _ hfa
  have hpM : (model.name == modelName) = true :=
    @List.find?_some _ (fun m => m.name == modelName) model _ hm
  have hfa' : L.apis.find? (fun a => a.name == apiName) = some api := by
    unfold findApi at hA
    cases hfa : L.apis.find? (fun a => a.name == apiName) with
    | none => rw [hfa] at hA; exact Except.noConfusion hA
    | some a0 => rw [hfa] at hA; rw [Except.ok.inj hA]
  constructor
  · intro hbad
    have hve : ∃ msg, validateLimits L.customWindows newLimits = .error msg := by
      cases hv : validateLimits L.customWindows newLimits with
      | ok u =>
        cases u
        exact absurd ((validateLimits_ok_iff L.customWindows newLimits).1 hv) hbad
      | error msg => exact ⟨msg, rfl⟩
    obtain ⟨msg, hv⟩ := hve
    refine ⟨msg, ?_, validateLimits_error_shape L.customWindows newLimits msg hv⟩
    unfold updateLimits
    rw [hA]
    dsimp only
    rw [hm]
    dsimp only
    rw [hv]
  · intro hgood
    have hv : validateLimits L.customWindows newLimits = .ok () :=
      (validateLimits_ok_iff L.customWindows newLimits).2 hgood
    unfold updateLimits
    rw [hA]
    dsimp only
    rw [hm]
    dsimp only
    rw [hv]
    dsimp only
    refine ⟨_, rfl,
      fun w v hw => jsMerge_lookup_new model.limits _ w v hw,
      fun w hw => jsMerge_lookup_old model.limits _ w hw, ?_⟩
    have hfC : ∀ a : Api,
        ((if a.name == apiName then updApi api modelName model newLimits else a).name
          == apiName) = (a.name == apiName) := by
      intro a
      by_cases ha : (a.name == apiName) = true
      · rw [if_pos ha, ha]
        exact hpA
      · rw [if_neg ha]
    have hfind1 : findApi (L.apis.map (fun a =>
        if a.name == apiName then updApi api modelName model newLimits else a)) apiName
        = .ok (updApi api modelName model newLimits) := by
      unfold findApi
      rw [find?_map_update _ _ hfC L.apis, hfa', Option.map_some']
      rw [if_pos hpA]
    have hfM : ∀ m : Model,
        ((if m.name == modelName then updModel model newLimits else m).name
          == modelName) = (m.name == modelName) := by
      intro m
      by_cases hmn : (m.name == modelName) = true
      · rw [if_pos hmn, hmn]
        exact hpM
      · rw [if_neg hmn]
    have hfind2 : (api.models.map (fun m =>
        if m.name == modelName then updModel model newLimits else m)).find?
          (fun m => m.name == modelName)
        = some (updModel model newLimits) := by
      rw [find?_map_update _ _ hfM api.models, hm, Option.map_some']
      rw [if_pos hpM]
    exact ⟨updApi api modelName model newLimits, hfind1,
      updModel model newLimits, hfind2, rfl⟩

/-- Witness for C8 at a concrete valid partial update. -/
theorem updateLimits_spec_witness :
    findApi testLimiter.apis "api 1" = .ok ⟨"api 1", ["k1"], [testModel1]⟩
    ∧ (⟨"api 1", ["k1"], [testModel1]⟩ : Api).models.find?
        (fun m => m.name == "m1") = some testModel1
    ∧ (∀ e ∈ [("minute", JVal.num 10), ("hour", JVal.num 7)],
        goodEntry testLimiter.customWindows e)
    ∧ ∃ L', updateLimits testLimiter "api 1" "m1" [("minute", JVal.num 10), ("hour", JVal.num 7)]
          = .ok (L', jsMerge testModel1.limits
              ([("minute", JVal.num 10), ("hour", JVal.num 7)].map (fun e => (e.1, e.2.toInt))))
        ∧ (∀ w v, lookupAssoc ([("minute", JVal.num 10), ("hour", JVal.num 7)].map
              (fun e => (e.1, e.2.toInt))) w = some v →
            lookupAssoc (jsMerge testModel1.limits
              ([("minute", JVal.num 10), ("hour", JVal.num 7)].map
                (fun e => (e.1, e.2.toInt)))) w = some v)
        ∧ (∀ w, lookupAssoc ([("minute", JVal.num 10), ("hour", JVal.num 7)].map
              (fun e => (e.1, e.2.toInt))) w = none →
            lookupAssoc (jsMerge testModel1.limits
              ([("minute", JVal.num 10), ("hour", JVal.num 7)].map
                (fun e => (e.1, e.2.toInt)))) w = lookupAssoc testModel1.limits w)
        ∧ ∃ api', findApi L'.apis "api 1" = .ok api'
            ∧ ∃ model', api'.models.find? (fun m => m.name == "m1") = some model'
              ∧ model'.limits = jsMerge testModel1.limits
                  ([("minute", JVal.num 10), ("hour", JVal.num 7)].map
                    (fun e => (e.1, e.2.toInt))) := by
  have hgood : ∀ e ∈ [("minute", JVal.num 10), ("hour", JVal.num 7)],
      goodEntry testLimiter.customWindows e := by
    intro e he
    rcases List.mem_cons.1 he with rfl | he2
    · exact ⟨⟨60, rfl, by decide⟩, 10, rfl, by decide⟩
    · rcases List.mem_cons.1 he2 with rfl | he3
      · exact ⟨⟨3600, rfl, by decide⟩, 7, rfl, by decide⟩
      · cases he3
  exact ⟨rfl, rfl, hgood,
    (updateLimits_spec testLimiter "api 1" "m1"
      [("minute", JVal.num 10), ("hour", JVal.num 7)]
      ⟨"api 1", ["k1"], [testModel1]⟩ testModel1 rfl rfl).2 hgood⟩

end ApiModelLimiter
